import Mathlib

/-!
Verification of the democracy-os core against its specification.

This file gives a shallow embedding, in Lean 4, of the parts of the
democracy-os repository that the specification's claims are about:

* the crypto package (`packages/crypto/src/nullifier.ts`): SHA-256 based
  nullifier derivation, payload hashing, chain hashing and chain
  verification;
* the standalone audit-verifier CLI (`tools/audit-verifier.ts`);
* the moderation route's audit-event insert (`apps/api/src/routes/moderation.ts`);
* the anonymous vote ledger route (`apps/api/src/routes/votes.ts`) together
  with the `votes` table constraints of `001_initial_schema.sql`;
* the multi-stage consultation routes (`apps/api/src/routes/consultations.ts`)
  together with the tables of `002_multi_stage_consultations.sql`.

SHA-256 itself is implemented executably (the repository uses the real
SHA-256 from `@noble/hashes` and node's `crypto`), so that concrete hash
values can be computed inside proofs by kernel reduction.  Strings are
hashed through their character codes; every string hashed in this
development is ASCII, for which this agrees with UTF-8 encoding.
-/

set_option maxRecDepth 1000000

/-! ## SHA-256 (executable model of the hash primitive used by the repo) -/

namespace Sha256

/-- Truncate to a 32-bit word. -/
def w32 (n : Nat) : Nat := n % 4294967296

/-- Right-rotation of a 32-bit word. -/
def rotr (n x : Nat) : Nat := w32 ((x >>> n) ||| (x <<< (32 - n)))

def xor3 (a b c : Nat) : Nat := Nat.xor (Nat.xor a b) c

def bigSigma0 (x : Nat) : Nat := xor3 (rotr 2 x) (rotr 13 x) (rotr 22 x)
def bigSigma1 (x : Nat) : Nat := xor3 (rotr 6 x) (rotr 11 x) (rotr 25 x)
def smallSigma0 (x : Nat) : Nat := xor3 (rotr 7 x) (rotr 18 x) (x >>> 3)
def smallSigma1 (x : Nat) : Nat := xor3 (rotr 17 x) (rotr 19 x) (x >>> 10)

def chF (x y z : Nat) : Nat := Nat.xor (x &&& y) (Nat.xor x 4294967295 &&& z)
def majF (x y z : Nat) : Nat := xor3 (x &&& y) (x &&& z) (y &&& z)

/-- The 64 SHA-256 round constants. -/
def K : List Nat :=
  [1116352408, 1899447441, 3049323471, 3921009573, 961987163, 1508970993, 2453635748, 2870763221,
   3624381080, 310598401, 607225278, 1426881987, 1925078388, 2162078206, 2614888103, 3248222580,
   3835390401, 4022224774, 264347078, 604807628, 770255983, 1249150122, 1555081692, 1996064986,
   2554220882, 2821834349, 2952996808, 3210313671, 3336571891, 3584528711, 113926993, 338241895,
   666307205, 773529912, 1294757372, 1396182291, 1695183700, 1986661051, 2177026350, 2456956037,
   2730485921, 2820302411, 3259730800, 3345764771, 3516065817, 3600352804, 4094571909, 275423344,
   430227734, 506948616, 659060556, 883997877, 958139571, 1322822218, 1537002063, 1747873779,
   1955562222, 2024104815, 2227730452, 2361852424, 2428436474, 2756734187, 3204031479, 3329325298]

/-- Big-endian 8-byte encoding of a length (in bits). -/
def be64 (n : Nat) : List Nat :=
  [n >>> 56 &&& 255, n >>> 48 &&& 255, n >>> 40 &&& 255, n >>> 32 &&& 255,
   n >>> 24 &&& 255, n >>> 16 &&& 255, n >>> 8 &&& 255, n &&& 255]

/-- SHA-256 message padding. -/
def padBytes (msg : List Nat) : List Nat :=
  let len := msg.length
  let zeros := (64 + 56 - (len + 1) % 64) % 64
  msg ++ 128 :: List.replicate zeros 0 ++ be64 (len * 8)

/-- Combine bytes into big-endian 32-bit words. -/
def toWords : List Nat → List Nat
  | a :: b :: c :: d :: rest => (((a * 256 + b) * 256 + c) * 256 + d) :: toWords rest
  | _ => []

/-- Split a word list into 16-word blocks. -/
def chunk16 : List Nat → List (List Nat)
  | w0 :: w1 :: w2 :: w3 :: w4 :: w5 :: w6 :: w7 ::
    w8 :: w9 :: w10 :: w11 :: w12 :: w13 :: w14 :: w15 :: rest =>
      [w0, w1, w2, w3, w4, w5, w6, w7, w8, w9, w10, w11, w12, w13, w14, w15] :: chunk16 rest
  | _ => []

/-- Message-schedule extension; `recent` holds already-computed words,
newest first. -/
def extend : Nat → List Nat → List Nat
  | 0, recent => recent
  | fuel + 1, recent =>
      let g := fun i => recent.getD i 0
      extend fuel (w32 (smallSigma1 (g 1) + g 6 + smallSigma0 (g 14) + g 15) :: recent)

/-- The eight working variables of the compression function. -/
structure Hs where
  a : Nat
  b : Nat
  c : Nat
  d : Nat
  e : Nat
  f : Nat
  g : Nat
  h : Nat

/-- One compression round. -/
def round (s : Hs) (k w : Nat) : Hs :=
  let t1 := w32 (s.h + bigSigma1 s.e + chF s.e s.f s.g + k + w)
  let t2 := w32 (bigSigma0 s.a + majF s.a s.b s.c)
  ⟨w32 (t1 + t2), s.a, s.b, s.c, w32 (s.d + t1), s.e, s.f, s.g⟩

def rounds : List Nat → List Nat → Hs → Hs
  | k :: ks, w :: ws, s => rounds ks ws (round s k w)
  | _, _, s => s

def initH : Hs :=
  ⟨1779033703, 3144134277, 1013904242, 2773480762, 1359893119, 2600822924, 528734635, 1541459225⟩

def processBlock (h : Hs) (block : List Nat) : Hs :=
  let ws := (extend 48 block.reverse).reverse
  let s := rounds K ws h
  ⟨w32 (h.a + s.a), w32 (h.b + s.b), w32 (h.c + s.c), w32 (h.d + s.d),
   w32 (h.e + s.e), w32 (h.f + s.f), w32 (h.g + s.g), w32 (h.h + s.h)⟩

def sha256Words (msg : List Nat) : Hs :=
  (chunk16 (toWords (padBytes msg))).foldl processBlock initH

def wordBytes (w : Nat) : List Nat := [w >>> 24 &&& 255, w >>> 16 &&& 255, w >>> 8 &&& 255, w &&& 255]

/-- SHA-256 digest (32 bytes) of a byte list. -/
def sha256 (msg : List Nat) : List Nat :=
  let s := sha256Words msg
  wordBytes s.a ++ wordBytes s.b ++ wordBytes s.c ++ wordBytes s.d ++
  wordBytes s.e ++ wordBytes s.f ++ wordBytes s.g ++ wordBytes s.h

def hexDigit (n : Nat) : Char := if n < 10 then Char.ofNat (48 + n) else Char.ofNat (87 + n)

def byteHex (b : Nat) : List Char := [hexDigit (b / 16), hexDigit (b % 16)]

/-- Lowercase hex rendering of a byte list (the repo's `bytesToHex`). -/
def bytesToHex (bs : List Nat) : String := String.mk ((bs.map byteHex).flatten)

/-- Bytes of a string, via character codes; agrees with UTF-8 for the ASCII
strings this development hashes. -/
def strBytes (s : String) : List Nat := s.data.map Char.toNat

/-- Hex SHA-256 of a string, as `bytesToHex(sha256(new TextEncoder().encode(s)))`. -/
def sha256Hex (s : String) : String := bytesToHex (sha256 (strBytes s))

/-- Sanity check against the FIPS 180 test vector for "abc". -/
theorem sha256Hex_abc :
    sha256Hex "abc" = "ba7816bf8f01cfea414140de5dae2223b00361a396177a9cb410ff61f20015ad" := by
  decide

end Sha256

/-! ## JSON payloads

Audit-event payloads in the repository are flat JSON objects whose values
are strings, integers or booleans (for example
`{ action: 'hide', moderatorId: ... }`), so payloads are modelled as flat
objects over primitives.  String rendering assumes no characters needing
JSON escapes, which holds for every string this development serializes. -/

inductive JPrim where
  | str (s : String)
  | num (n : Int)
  | bool (b : Bool)
deriving DecidableEq

inductive JVal where
  | prim (p : JPrim)
  | obj (fields : List (String × JPrim))
deriving DecidableEq

deriving instance DecidableEq for Except

def digitChar (d : Nat) : Char := Char.ofNat (48 + d)

def natDigits : Nat → Nat → List Char
  | 0, _ => []
  | fuel + 1, n => if n < 10 then [digitChar n] else natDigits fuel (n / 10) ++ [digitChar (n % 10)]

def natToStr (n : Nat) : String := String.mk (natDigits (n + 1) n)

def intToStr : Int → String
  | .ofNat n => natToStr n
  | .negSucc n => "-" ++ natToStr (n + 1)

def stringifyPrim : JPrim → String
  | .str s => "\"" ++ s ++ "\""
  | .num n => intToStr n
  | .bool b => if b then "true" else "false"

/-- `JSON.stringify` of a flat object: fields in insertion order. -/
def stringify : JVal → String
  | .prim p => stringifyPrim p
  | .obj fields =>
      "\x7b" ++ String.intercalate ","
        (fields.map fun kv => "\"" ++ kv.1 ++ "\":" ++ stringifyPrim kv.2)
      ++ "\x7d"

/-! ## The crypto package (`packages/crypto/src/nullifier.ts`) -/

namespace Crypto

/-- The hash input built by `generateNullifier`:
``const data = `${pollId}:${userSecretSalt}` ``. -/
def nullifierData (pollId userSecretSalt : String) : String :=
  pollId ++ ":" ++ userSecretSalt

/-- `generateNullifier(pollId, userSecretSalt)`: hex SHA-256 of the
colon-joined input. -/
def generateNullifier (pollId userSecretSalt : String) : String :=
  Sha256.sha256Hex (nullifierData pollId userSecretSalt)

/-- `generateHash(data)`: `typeof data === 'string' ? data : JSON.stringify(data)`,
then hex SHA-256. -/
def generateHash (data : JVal) : String :=
  let jsonString :=
    match data with
    | .prim (.str s) => s
    | d => stringify d
  Sha256.sha256Hex jsonString

/-- `generateChainHash(payloadHash, previousEventHash)`:
hex SHA-256 of ``previousEventHash ? `${previousEventHash}:${payloadHash}` : payloadHash``. -/
def generateChainHash (payloadHash : String) (previousEventHash : Option String) : String :=
  let data :=
    match previousEventHash with
    | some prev => prev ++ ":" ++ payloadHash
    | none => payloadHash
  Sha256.sha256Hex data

/-- An audit event as consumed by the crypto package's `verifyHashChain`
(and as stored in the `audit_events` table): the function's input type
requires only `payload_hash` and `previous_event_hash`; the stored row also
carries the payload, which the function never reads. -/
structure AuditEventRec where
  payload : JVal
  payload_hash : String
  previous_event_hash : Option String
deriving DecidableEq

/-- The loop of the crypto package's `verifyHashChain` from index 1 on:
each event's `previous_event_hash` must equal
`generateChainHash(previousEvent.payload_hash, previousEvent.previous_event_hash)`. -/
def chainLinksOk : AuditEventRec → List AuditEventRec → Bool
  | _, [] => true
  | prev, e :: rest =>
      (e.previous_event_hash == some (generateChainHash prev.payload_hash prev.previous_event_hash))
        && chainLinksOk e rest

/-- `verifyHashChain(events)` of the crypto package: the first event must
have no previous hash, and every later event must link to its predecessor
via `generateChainHash`. -/
def verifyHashChain : List AuditEventRec → Bool
  | [] => true
  | e0 :: rest => (e0.previous_event_hash == none) && chainLinksOk e0 rest

end Crypto

/-! ## The standalone audit-verifier CLI (`tools/audit-verifier.ts`)

The CLI's per-event error messages (strings such as
"Event 2 (id): Payload hash mismatch ...") are modelled structurally as
pairs of the event index and an error kind, in the exact order the source
pushes them. -/

namespace Cli

/-- An event of an exported audit bundle, as read by the CLI
(`id`, `eventType`, `entityType`, `entityId` and `createdAt` do not enter
any check and are omitted). -/
structure CliEvent where
  payload : JVal
  payloadHash : String
  previousEventHash : Option String
deriving DecidableEq

/-- Lexicographic comparison of character lists by code point; this is the
default `Array.prototype.sort` comparator restricted to the ASCII strings
serialized here. -/
def charListLe : List Char → List Char → Bool
  | _ :: _, [] => false
  | [], _ => true
  | x :: xs, y :: ys =>
      if x.toNat < y.toNat then true
      else if y.toNat < x.toNat then false
      else charListLe xs ys

def strLe (a b : String) : Bool := charListLe a.data b.data

/-- `strLe` as a relation, for sorting. -/
def StrOrd (a b : String) : Prop := strLe a b = true

instance : DecidableRel StrOrd := fun a b =>
  inferInstanceAs (Decidable (strLe a b = true))

/-- `Object.keys(payload).sort()`. -/
def sortKeys (l : List String) : List String := List.insertionSort StrOrd l

def objKeys : JVal → List String
  | .prim _ => []
  | .obj fields => fields.map Prod.fst

/-- `JSON.stringify(v, keys)` with an array replacer: at an object level
exactly the listed keys are serialized, in list order, skipping keys the
object does not have. -/
def stringifyWithKeys (keys : List String) : JVal → String
  | .prim p => stringifyPrim p
  | .obj fields =>
      "\x7b" ++ String.intercalate ","
        (keys.filterMap fun k =>
          (fields.lookup k).map fun v => "\"" ++ k ++ "\":" ++ stringifyPrim v)
      ++ "\x7d"

/-- `computePayloadHash(payload)`:
`JSON.stringify(payload, Object.keys(payload).sort())`, then hex SHA-256. -/
def computePayloadHash (payload : JVal) : String :=
  Sha256.sha256Hex (stringifyWithKeys (sortKeys (objKeys payload)) payload)

/-- Kinds of integrity violations the CLI reports. -/
inductive CliErr where
  | firstEventHasPrev
  | payloadHashMismatch
  | chainBreak
deriving DecidableEq

/-- The payload-hash check the CLI performs at index `i`
(`verifyEventHash`): the stored `payloadHash` must equal
`computePayloadHash(payload)`. -/
def payloadErrAt (events : List CliEvent) (i : Nat) : List (Nat × CliErr) :=
  match events[i]? with
  | some e =>
      if computePayloadHash e.payload == e.payloadHash then [] else [(i, .payloadHashMismatch)]
  | none => []

/-- The chain-link check the CLI performs at index `i > 0`: the event's
`previousEventHash` is compared directly with the PREVIOUS EVENT'S
`payloadHash` (`event.previousEventHash === previousEvent.payloadHash`). -/
def linkErrAt (events : List CliEvent) : Nat → List (Nat × CliErr)
  | 0 => []
  | j + 1 =>
      match events[j + 1]?, events[j]? with
      | some e, some prev =>
          if e.previousEventHash == some prev.payloadHash then [] else [(j + 1, .chainBreak)]
      | _, _ => []

/-- The check pushed before the loop: the first event must have a null
`previousEventHash`. -/
def firstEventErr : List CliEvent → List (Nat × CliErr)
  | [] => []
  | e0 :: _ => if e0.previousEventHash == none then [] else [(0, .firstEventHasPrev)]

/-- All errors the CLI's `verifyHashChain` pushes, in push order: the
first-event check, then for each index the payload check followed by the
link check. -/
def chainErrors (events : List CliEvent) : List (Nat × CliErr) :=
  firstEventErr events
  ++ (List.range events.length).flatMap fun i => payloadErrAt events i ++ linkErrAt events i

/-- The CLI verifier's result record. -/
structure CliResult where
  valid : Bool
  errors : List (Nat × CliErr)
  warnings : List String
  totalEvents : Nat
  validHashes : Nat
  validLinks : Nat
deriving DecidableEq

/-- The CLI's `verifyHashChain(events)`.  An empty sequence is valid with a
warning and zero stats.  The returned `validLinks` stat is
`events.length - 1` exactly as in the source (which returns the link total
rather than the link counter). -/
def verifyHashChain (events : List CliEvent) : CliResult :=
  if events.isEmpty then
    { valid := true, errors := [], warnings := ["No events to verify"],
      totalEvents := 0, validHashes := 0, validLinks := 0 }
  else
    let errors := chainErrors events
    { valid := errors.isEmpty, errors := errors, warnings := [],
      totalEvents := events.length,
      validHashes := events.countP fun e => computePayloadHash e.payload == e.payloadHash,
      validLinks := events.length - 1 }

end Cli

/-! ## The moderation route's audit-event insert
(`apps/api/src/routes/moderation.ts`, POST /comments/:commentId/hide)

This is the only code path in the repository that inserts into
`audit_events`.  Its INSERT lists the columns
`(tenant_id, user_id, event_type, target_type, target_id, payload, payload_hash)`;
`previous_event_hash` is not in the column list, so the stored value is the
column default NULL whatever events the tenant already has.  The stored
`payload` is `{ action: 'hide', moderatorId }` while `payload_hash` is
computed over the different object `{ commentId, action: 'hide' }`. -/

namespace Moderation

/-- The values the hide-comment route writes for one audit event. -/
structure AuditInsertRow where
  tenantId : String
  userId : String
  eventType : String
  targetType : String
  targetId : String
  payload : JVal
  payloadHash : String
  previousEventHash : Option String
deriving DecidableEq

/-- The audit row built by the hide-comment route for moderator `userId`
hiding comment `commentId` in tenant `tenantId`. -/
def hideCommentAuditInsert (tenantId userId commentId : String) : AuditInsertRow :=
  { tenantId := tenantId
    userId := userId
    eventType := "comment_hidden"
    targetType := "comment"
    targetId := commentId
    payload := .obj [("action", .str "hide"), ("moderatorId", .str userId)]
    payloadHash :=
      Sha256.sha256Hex (stringify (.obj [("commentId", .str commentId), ("action", .str "hide")]))
    previousEventHash := none }

end Moderation

/-! ## The anonymous vote ledger
(`apps/api/src/routes/votes.ts` over the `votes` table of
`001_initial_schema.sql`)

The `votes` table carries `UNIQUE(poll_id, nullifier)` and
`previous_vote_id UUID REFERENCES votes(id) ON DELETE SET NULL`.  Row ids
are modelled as the naturals a sequence would hand out.  The route body is
modelled after the nullifier has been derived (the route computes it as
`generateNullifier(pollId, secretSalt)` from the caller's stored salt). -/

namespace Votes

structure VoteRow where
  id : Nat
  pollId : String
  nullifier : String
  optionId : String
  previousVoteId : Option Nat
deriving DecidableEq

/-- The poll columns the vote route reads:
`SELECT id, status, options, start_time, end_time FROM polls`.  Option
objects `{id, text}` are represented by their ids, the only field the
route's validity check uses. -/
structure PollRow where
  id : String
  status : String
  options : List String
  startTime : Option Int
  endTime : Option Int
deriving DecidableEq

structure VotesDb where
  rows : List VoteRow
  nextId : Nat
deriving DecidableEq

inductive VoteErr where
  | pollNotActive
  | pollNotStarted
  | pollEnded
  | invalidOption
  | uniqueViolation
deriving DecidableEq

/-- `INSERT INTO votes (poll_id, nullifier, option_id, previous_vote_id)`:
PostgreSQL raises `unique_violation` when a row for the same
`(poll_id, nullifier)` already exists, else the row is stored. -/
def insertVote (db : VotesDb) (pollId nullifier optionId : String)
    (previousVoteId : Option Nat) : Except VoteErr (VotesDb × VoteRow) :=
  if db.rows.any fun r => r.pollId == pollId && r.nullifier == nullifier then
    .error .uniqueViolation
  else
    let row : VoteRow :=
      { id := db.nextId, pollId := pollId, nullifier := nullifier,
        optionId := optionId, previousVoteId := previousVoteId }
    .ok ({ rows := db.rows ++ [row], nextId := db.nextId + 1 }, row)

/-- `DELETE FROM votes WHERE id = $1`; the schema's `ON DELETE SET NULL`
nulls any other row's `previous_vote_id` that referenced the deleted row. -/
def deleteVote (db : VotesDb) (voteId : Nat) : VotesDb :=
  { rows :=
      (db.rows.filter fun r => r.id != voteId).map fun r =>
        if r.previousVoteId == some voteId then { r with previousVoteId := none } else r,
    nextId := db.nextId }

/-- POST /api/polls/:pollId/vote after nullifier derivation: status, time
window and option checks, then the existing-vote branch (insert the
replacement row referencing the old row, then delete the old row) or the
first-vote branch (plain insert). -/
def castOrUpdateVote (db : VotesDb) (poll : PollRow) (now : Int)
    (nullifier optionId : String) : Except VoteErr (VotesDb × VoteRow) :=
  if poll.status ≠ "active" then .error .pollNotActive
  else if poll.startTime.any fun t => decide (now < t) then .error .pollNotStarted
  else if poll.endTime.any fun t => decide (t < now) then .error .pollEnded
  else if ¬ (poll.options.any fun o => o == optionId) then .error .invalidOption
  else
    match db.rows.find? fun r => r.pollId == poll.id && r.nullifier == nullifier with
    | some prev =>
        match insertVote db poll.id nullifier optionId (some prev.id) with
        | .ok (db1, row) => .ok (deleteVote db1 prev.id, row)
        | .error e => .error e
    | none => insertVote db poll.id nullifier optionId none

/-- GET /api/polls/:pollId/has-voted: the option id of the stored vote for
`(pollId, nullifier)`, if any. -/
def hasVoted (db : VotesDb) (pollId nullifier : String) : Option String :=
  (db.rows.find? fun r => r.pollId == pollId && r.nullifier == nullifier).map (·.optionId)

/-- The per-option count of the results queries:
`SELECT option_id, COUNT(*) FROM votes WHERE poll_id = $1 GROUP BY option_id`. -/
def countVotes (db : VotesDb) (pollId optionId : String) : Nat :=
  (db.rows.filter fun r => r.pollId == pollId && r.optionId == optionId).length

/-- Total number of votes of a poll. -/
def totalVotes (db : VotesDb) (pollId : String) : Nat :=
  (db.rows.filter fun r => r.pollId == pollId).length

end Votes

/-! ## Multi-stage consultations
(`apps/api/src/routes/consultations.ts` over the tables of
`002_multi_stage_consultations.sql`)

`consultation_idea_votes` carries `UNIQUE(idea_id, user_id)` and
`vote_type` is the ENUM ('upvote', 'downvote'); `consultation_ideas` has
integer counters `upvotes`/`downvotes` and a `status` defaulting to
'submitted'. -/

namespace Consultations

inductive VoteType where
  | upvote
  | downvote
deriving DecidableEq

inductive Stage where
  | idea_collection
  | shortlist_selection
  | final_arbitration
deriving DecidableEq

structure Idea where
  id : Nat
  pollId : String
  title : String
  upvotes : Int
  downvotes : Int
  status : String
  createdAt : Nat
deriving DecidableEq

structure IdeaVote where
  id : Nat
  ideaId : Nat
  userId : String
  voteType : VoteType
deriving DecidableEq

structure ConsDb where
  ideas : List Idea
  ideaVotes : List IdeaVote
  nextVoteId : Nat
deriving DecidableEq

inductive ConsErr where
  | ideaNotFound
  | belowMinIdeas (required current : Nat)
  | invalidTransition
deriving DecidableEq

/-- The per-row effect of
`UPDATE consultation_ideas SET <field> = <field> + delta WHERE id = $1`
where the field is the counter matching `vt`. -/
def bumpFn (ideaId : Nat) (vt : VoteType) (delta : Int) (idea : Idea) : Idea :=
  if idea.id == ideaId then
    match vt with
    | .upvote => { idea with upvotes := idea.upvotes + delta }
    | .downvote => { idea with downvotes := idea.downvotes + delta }
  else idea

/-- The counter UPDATE applied to the table. -/
def bumpCounter (ideas : List Idea) (ideaId : Nat) (vt : VoteType) (delta : Int) : List Idea :=
  ideas.map (bumpFn ideaId vt delta)

/-- POST /:pollId/ideas/:ideaId/vote: the toggle logic run inside
BEGIN/COMMIT — same type again deletes the vote and decrements its
counter; the opposite type updates the vote row and moves one unit from
the old counter to the new; no existing vote inserts a row and increments. -/
def voteOnIdea (db : ConsDb) (pollId : String) (ideaId : Nat) (userId : String)
    (vt : VoteType) : Except ConsErr ConsDb :=
  if ¬ (db.ideas.any fun i => i.id == ideaId && i.pollId == pollId) then .error .ideaNotFound
  else
    match db.ideaVotes.find? fun v => v.ideaId == ideaId && v.userId == userId with
    | some existing =>
        if existing.voteType = vt then
          .ok { db with
                ideaVotes := db.ideaVotes.filter fun v => v.id != existing.id,
                ideas := bumpCounter db.ideas ideaId vt (-1) }
        else
          .ok { db with
                ideaVotes := db.ideaVotes.map fun v =>
                  if v.id == existing.id then { v with voteType := vt } else v,
                ideas := bumpCounter (bumpCounter db.ideas ideaId existing.voteType (-1)) ideaId vt 1 }
    | none =>
        .ok { ideas := bumpCounter db.ideas ideaId vt 1,
              ideaVotes := db.ideaVotes ++ [{ id := db.nextVoteId, ideaId := ideaId,
                                              userId := userId, voteType := vt }],
              nextVoteId := db.nextVoteId + 1 }

def ideaScore (i : Idea) : Int := i.upvotes - i.downvotes

/-- The shortlisting ORDER BY: `(upvotes - downvotes) DESC, created_at ASC`.
Rows tying on both keys are returned by SQL in an unspecified order; the
model uses a stable sort, fixing one of the permitted orders. -/
def IdeaOrd (a b : Idea) : Prop :=
  ideaScore b < ideaScore a ∨ (ideaScore a = ideaScore b ∧ a.createdAt ≤ b.createdAt)

instance : DecidableRel IdeaOrd := fun a b =>
  inferInstanceAs (Decidable (_ ∨ _))

instance : IsTotal Idea IdeaOrd := by
  constructor
  intro a b
  rcases lt_trichotomy (ideaScore a) (ideaScore b) with h | h | h
  · exact Or.inr (Or.inl h)
  · rcases Nat.le_total a.createdAt b.createdAt with hc | hc
    · exact Or.inl (Or.inr ⟨h, hc⟩)
    · exact Or.inr (Or.inr ⟨h.symm, hc⟩)
  · exact Or.inl (Or.inl h)

instance : IsTrans Idea IdeaOrd := by
  constructor
  rintro a b c (h1 | ⟨h1, h1c⟩) (h2 | ⟨h2, h2c⟩)
  · exact Or.inl (h2.trans h1)
  · exact Or.inl (h2 ▸ h1)
  · exact Or.inl (h1 ▸ h2)
  · exact Or.inr ⟨h1.trans h2, h1c.trans h2c⟩

/-- `ORDER BY (upvotes - downvotes) DESC` alone (stage 2 → 3 options query). -/
def IdeaOrdScore (a b : Idea) : Prop := ideaScore b ≤ ideaScore a

instance : DecidableRel IdeaOrdScore := fun a b =>
  inferInstanceAs (Decidable (ideaScore b ≤ ideaScore a))

/-- `consultation_stages` columns the transition route reads. -/
structure StageRow where
  pollId : String
  currentStage : Stage
  minIdeasForStage2 : Nat
  shortlistSize : Nat
deriving DecidableEq

/-- Outcome of a successful transition: the updated tables, the poll's
replacement options when stage 2 → 3 rewrote them, and the audit-event
rows the route inserted — the route's body contains no
`INSERT INTO audit_events` statement, so this list is empty on every
path. -/
structure TransitionResult where
  db : ConsDb
  stage : StageRow
  pollOptions : Option (List (Nat × String))
  auditEvents : List Crypto.AuditEventRec
deriving DecidableEq

/-- `SELECT ... FROM consultation_ideas WHERE poll_id = $1`. -/
def pollIdeas (db : ConsDb) (pollId : String) : List Idea :=
  db.ideas.filter fun i => i.pollId == pollId

/-- The shortlisting subquery:
ids of the top `k` of the poll's ideas in `IdeaOrd` order. -/
def shortlistIds (db : ConsDb) (pollId : String) (k : Nat) : List Nat :=
  ((List.insertionSort IdeaOrd (pollIdeas db pollId)).take k).map (·.id)

/-- Per-row effect of
`UPDATE consultation_ideas SET status = 'shortlisted' WHERE id IN chosen`. -/
def markShortlisted (chosen : List Nat) (i : Idea) : Idea :=
  if chosen.contains i.id then { i with status := "shortlisted" } else i

/-- Per-row effect of `UPDATE consultation_ideas SET status = 'rejected'
WHERE poll_id = $1 AND status = 'submitted'`. -/
def markRejected (pollId : String) (i : Idea) : Idea :=
  if i.pollId == pollId && i.status == "submitted" then { i with status := "rejected" } else i

/-- POST /api/consultations/:pollId/transition, after the role check. -/
def transitionStage (db : ConsDb) (stage : StageRow) (nextStage : Stage) :
    Except ConsErr TransitionResult :=
  if stage.currentStage = .idea_collection ∧ nextStage = .shortlist_selection then
    let ideasCount := (pollIdeas db stage.pollId).length
    if ideasCount < stage.minIdeasForStage2 then
      .error (.belowMinIdeas stage.minIdeasForStage2 ideasCount)
    else
      let chosen := shortlistIds db stage.pollId stage.shortlistSize
      let ideas1 := db.ideas.map (markShortlisted chosen)
      let ideas2 := ideas1.map (markRejected stage.pollId)
      .ok { db := { db with ideas := ideas2 },
            stage := { stage with currentStage := .shortlist_selection },
            pollOptions := none, auditEvents := [] }
  else if stage.currentStage = .shortlist_selection ∧ nextStage = .final_arbitration then
    let shortlisted :=
      List.insertionSort IdeaOrdScore
        ((pollIdeas db stage.pollId).filter fun i => i.status == "shortlisted")
    .ok { db := db,
          stage := { stage with currentStage := .final_arbitration },
          pollOptions := some (shortlisted.map fun i => (i.id, i.title)),
          auditEvents := [] }
  else .error .invalidTransition

/-- Number of the poll's ideas with a given status. -/
def countStatus (db : ConsDb) (pollId st : String) : Nat :=
  ((pollIdeas db pollId).filter fun i => i.status == st).length

/-- The stored idea-vote rows of `(ideaId, userId)`. -/
def ideaVotesFor (db : ConsDb) (ideaId : Nat) (userId : String) : List IdeaVote :=
  db.ideaVotes.filter fun v => v.ideaId == ideaId && v.userId == userId

/-- The stored counter of type `vt` on an idea row. -/
def counterFn (vt : VoteType) (idea : Idea) : Int :=
  match vt with
  | .upvote => idea.upvotes
  | .downvote => idea.downvotes

/-- The stored counter of type `vt` on idea `ideaId` (0 if the idea is
absent). -/
def counterOf (db : ConsDb) (ideaId : Nat) (vt : VoteType) : Int :=
  match db.ideas.find? fun i => i.id == ideaId with
  | some idea => counterFn vt idea
  | none => 0

/-- The opposite vote type. -/
def otherType : VoteType → VoteType
  | .upvote => .downvote
  | .downvote => .upvote

/-- The `UNIQUE(idea_id, user_id)` table constraint as an invariant. -/
def UniqueIdeaUser (votes : List IdeaVote) : Prop :=
  votes.Pairwise fun a b => ¬ (a.ideaId = b.ideaId ∧ a.userId = b.userId)

end Consultations

/-! ## Supporting lemmas -/

/-- Splitting a concatenation at a separator absent from both left parts is
unambiguous. -/
theorem append_sep_inj : ∀ (a x : List Char) (c : Char) (b y : List Char),
    c ∉ a → c ∉ x → a ++ c :: b = x ++ c :: y → a = x ∧ b = y := by
  intro a
  induction a with
  | nil =>
      intro x c b y _ hx h
      cases x with
      | nil => simpa using h
      | cons d ds =>
          simp only [List.nil_append, List.cons_append, List.cons.injEq] at h
          exact absurd (h.1 ▸ List.mem_cons_self d ds) hx
  | cons e as ih =>
      intro x c b y ha hx h
      cases x with
      | nil =>
          simp only [List.nil_append, List.cons_append, List.cons.injEq] at h
          exact absurd (h.1 ▸ List.mem_cons_self e as) ha
      | cons d ds =>
          simp only [List.cons_append, List.cons.injEq] at h
          have ha' : c ∉ as := fun hc => ha (List.mem_cons_of_mem e hc)
          have hx' : c ∉ ds := fun hc => hx (List.mem_cons_of_mem d hc)
          obtain ⟨h1, h2⟩ := ih ds c b y ha' hx' h.2
          exact ⟨by rw [h.1, h1], h2⟩

/-! ## Claim C5 (nullifier input encoding) -/

/-- Claim C5, as stated, is false: the nullifier hash input is
```${pollId}:${userSecretSalt}```, so the distinct pairs `("a:b", "c")` and
`("a", "b:c")` produce the same encoded hash input `"a:b:c"` — and hence
the same nullifier. -/
theorem nullifierData_ambiguous :
    Crypto.nullifierData "a:b" "c" = Crypto.nullifierData "a" "b:c"
    ∧ (("a:b", "c") : String × String) ≠ ("a", "b:c")
    ∧ Crypto.generateNullifier "a:b" "c" = Crypto.generateNullifier "a" "b:c" :=
  ⟨by decide, by decide, rfl⟩

/-- Claim C5, amended: whenever neither pollId contains the ':' delimiter
(poll ids in the repository are UUIDs), the encoding fed to the 256-bit
hash is unambiguous — distinct pairs give distinct encoded strings. -/
theorem nullifierData_inj_of_no_colon (p1 s1 p2 s2 : String)
    (h1 : (':' : Char) ∉ p1.data) (h2 : (':' : Char) ∉ p2.data)
    (hne : (p1, s1) ≠ (p2, s2)) :
    Crypto.nullifierData p1 s1 ≠ Crypto.nullifierData p2 s2 := by
  intro h
  have hd : p1.data ++ ':' :: s1.data = p2.data ++ ':' :: s2.data := by
    have h' := congrArg String.data h
    simpa [Crypto.nullifierData, String.data_append] using h'
  obtain ⟨hp, hs⟩ := append_sep_inj _ _ _ _ _ h1 h2 hd
  exact hne (by rw [Prod.mk.injEq]; exact ⟨String.ext hp, String.ext hs⟩)

theorem nullifierData_inj_of_no_colon_witness :
    Crypto.nullifierData "p1" "s1" ≠ Crypto.nullifierData "p2" "s2" :=
  nullifierData_inj_of_no_colon "p1" "s1" "p2" "s2" (by decide) (by decide) (by decide)

/-! ## Claim C2 (audit append never sets the chain link) -/

/-- Claim C2: the only audit-event insert in the repository (the
hide-comment moderation route) leaves `previous_event_hash` out of its
column list, so the stored link is NULL regardless of the tenant's prior
events — never `generateChainHash` of the latest prior event — and the
stored `payload_hash` is the hash of `{ commentId, action }`, a different
object than the stored payload `{ action, moderatorId }`. -/
theorem hideComment_audit_never_chains :
    (∀ tenantId userId commentId : String,
        (Moderation.hideCommentAuditInsert tenantId userId commentId).previousEventHash = none)
    ∧ (∀ (tenantId userId commentId ph : String) (pp : Option String),
        (Moderation.hideCommentAuditInsert tenantId userId commentId).previousEventHash
          ≠ some (Crypto.generateChainHash ph pp))
    ∧ (Moderation.hideCommentAuditInsert "t1" "mod1" "c1").payloadHash
        ≠ Crypto.generateHash (Moderation.hideCommentAuditInsert "t1" "mod1" "c1").payload := by
  refine ⟨fun _ _ _ => rfl, fun _ _ _ _ _ h => Option.noConfusion h, by decide⟩

theorem hideComment_audit_never_chains_witness :
    (Moderation.hideCommentAuditInsert "t2" "mod2" "c2").previousEventHash
      ≠ some (Crypto.generateChainHash "abc" none) :=
  hideComment_audit_never_chains.2.1 "t2" "mod2" "c2" "abc" none

/-! ## Claim C8 (stage transitions append no audit event) -/

/-- Claim C8: the transition route contains no `INSERT INTO audit_events`,
so on every successful `transitionStage` the list of audit-event rows the
route inserted is empty — no successful transition appends an audit
event. -/
theorem transitionStage_appends_no_audit :
    ∀ (db : Consultations.ConsDb) (stage : Consultations.StageRow)
      (nextStage : Consultations.Stage),
      (Consultations.transitionStage db stage nextStage).map
          Consultations.TransitionResult.auditEvents
        = (Consultations.transitionStage db stage nextStage).map
            (fun _ => ([] : List Crypto.AuditEventRec)) := by
  intro db stage nextStage
  unfold Consultations.transitionStage
  dsimp only
  split
  · split <;> rfl
  · split <;> rfl

/-! ## Claim C1 (vote update path) -/

/-- Claim C1 fails on the code: when a live vote for `(poll, nullifier)`
exists, the route inserts the replacement row while the superseded row is
still present, so the insert hits `UNIQUE(poll_id, nullifier)` and the
whole call fails with a unique violation (the delete never runs); the
store keeps the old vote, so `hasVoted` still reports the old option. -/
theorem castOrUpdateVote_update_path_fails
    (db : Votes.VotesDb) (poll : Votes.PollRow) (now : Int)
    (nullifier optionId : String) (prev : Votes.VoteRow)
    (hactive : poll.status = "active")
    (hstart : (poll.startTime.any fun t => decide (now < t)) = false)
    (hend : (poll.endTime.any fun t => decide (t < now)) = false)
    (hopt : (poll.options.any fun o => o == optionId) = true)
    (hfind : (db.rows.find? fun r => r.pollId == poll.id && r.nullifier == nullifier)
        = some prev) :
    Votes.castOrUpdateVote db poll now nullifier optionId = .error .uniqueViolation
    ∧ Votes.hasVoted db poll.id nullifier = some prev.optionId := by
  have hany : (db.rows.any fun r => r.pollId == poll.id && r.nullifier == nullifier) = true :=
    List.any_eq_true.mpr ⟨prev, List.mem_of_find?_eq_some hfind,
      @List.find?_some _ (fun r => r.pollId == poll.id && r.nullifier == nullifier) prev db.rows hfind⟩
  constructor
  · unfold Votes.castOrUpdateVote
    rw [if_neg (by simp [hactive]), if_neg (by simp [hstart]), if_neg (by simp [hend]),
        if_neg (by simp [hopt]), hfind]
    simp [Votes.insertVote, hany]
  · unfold Votes.hasVoted
    rw [hfind]
    rfl

theorem castOrUpdateVote_update_path_fails_witness :
    Votes.castOrUpdateVote ⟨[⟨1, "P", "N", "O1", none⟩], 2⟩
        ⟨"P", "active", ["O1", "O2"], none, none⟩ 0 "N" "O2"
      = .error .uniqueViolation
    ∧ Votes.hasVoted ⟨[⟨1, "P", "N", "O1", none⟩], 2⟩ "P" "N" = some "O1" :=
  castOrUpdateVote_update_path_fails ⟨[⟨1, "P", "N", "O1", none⟩], 2⟩
    ⟨"P", "active", ["O1", "O2"], none, none⟩ 0 "N" "O2" ⟨1, "P", "N", "O1", none⟩
    rfl rfl rfl (by decide) (by decide)

/-! ## Claim C10 (no provenance pointer survives) -/

/-- Claim C10: any `castOrUpdateVote` call that completes successfully
leaves every stored vote row with a NULL `previous_vote_id`, provided all
rows had NULL `previous_vote_id` beforehand.  (The only branch that can
complete is the first-vote branch, whose INSERT omits `previous_vote_id`;
the update branch writes a provenance pointer but always dies on the
UNIQUE constraint; and `ON DELETE SET NULL` would null any surviving
pointer to a deleted row.) -/
theorem castOrUpdateVote_keeps_null_provenance
    (db : Votes.VotesDb) (poll : Votes.PollRow) (now : Int)
    (nullifier optionId : String) (db' : Votes.VotesDb) (row : Votes.VoteRow)
    (hinv : ∀ r ∈ db.rows, r.previousVoteId = none)
    (hok : Votes.castOrUpdateVote db poll now nullifier optionId = .ok (db', row)) :
    ∀ r ∈ db'.rows, r.previousVoteId = none := by
  unfold Votes.castOrUpdateVote at hok
  split at hok
  · exact absurd hok (by simp)
  split at hok
  · exact absurd hok (by simp)
  split at hok
  · exact absurd hok (by simp)
  split at hok
  · exact absurd hok (by simp)
  split at hok
  case _ prev hfind =>
    have hany : (db.rows.any fun r => r.pollId == poll.id && r.nullifier == nullifier) = true :=
      List.any_eq_true.mpr ⟨prev, List.mem_of_find?_eq_some hfind,
        @List.find?_some _ (fun r => r.pollId == poll.id && r.nullifier == nullifier) prev db.rows hfind⟩
    unfold Votes.insertVote at hok
    rw [if_pos hany] at hok
    exact absurd hok (by simp)
  case _ hfind =>
    unfold Votes.insertVote at hok
    split at hok
    · exact absurd hok (by simp)
    · simp only [Except.ok.injEq, Prod.mk.injEq] at hok
      obtain ⟨hdb, -⟩ := hok
      intro r hr
      rw [← hdb] at hr
      rcases List.mem_append.mp hr with h | h
      · exact hinv r h
      · simp only [List.mem_singleton] at h
        subst h
        rfl

theorem castOrUpdateVote_keeps_null_provenance_witness :
    (⟨1, "P", "N", "O1", none⟩ : Votes.VoteRow).previousVoteId = none :=
  castOrUpdateVote_keeps_null_provenance ⟨[], 1⟩
    ⟨"P", "active", ["O1", "O2"], none, none⟩ 0 "N" "O1"
    ⟨[⟨1, "P", "N", "O1", none⟩], 2⟩ ⟨1, "P", "N", "O1", none⟩
    (by simp) (by decide) ⟨1, "P", "N", "O1", none⟩ (by decide)


/-! ## Claim C3 (which link rule the verifiers use) -/

/-- The payload check never produces a chain-break error entry. -/
theorem chainBreak_not_mem_payloadErrAt (events : List Cli.CliEvent) (i k : Nat) :
    (k, Cli.CliErr.chainBreak) ∉ Cli.payloadErrAt events i := by
  unfold Cli.payloadErrAt
  split
  · split <;> simp
  · simp

/-- Shape of the entries produced by the CLI's link check. -/
theorem linkErrAt_mem_shape (events : List Cli.CliEvent) (i : Nat) (p : Nat × Cli.CliErr)
    (h : p ∈ Cli.linkErrAt events i) :
    ∃ (m : Nat) (e prev : Cli.CliEvent),
      i = m + 1 ∧ p = (m + 1, Cli.CliErr.chainBreak)
      ∧ events[m + 1]? = some e ∧ events[m]? = some prev
      ∧ (e.previousEventHash == some prev.payloadHash) = false := by
  cases i with
  | zero => simp [Cli.linkErrAt] at h
  | succ m =>
      simp only [Cli.linkErrAt] at h
      rcases h1 : events[m + 1]? with - | e <;> rcases h2 : events[m]? with - | prev <;>
        rw [h1, h2] at h <;> dsimp only at h
      · simp at h
      · simp at h
      · simp at h
      · rcases h3 : e.previousEventHash == some prev.payloadHash <;> rw [h3] at h
        · simp only [Bool.false_eq_true, if_false, List.mem_singleton] at h
          exact ⟨m, e, prev, rfl, h, h1, h2, h3⟩
        · simp at h

/-- An error entry of kind `firstEventHasPrev` can only come from the
first-event check. -/
theorem chainErrors_first_mem (events : List Cli.CliEvent) (p : Nat × Cli.CliErr)
    (h : p ∈ Cli.chainErrors events) (hk : p.2 = Cli.CliErr.firstEventHasPrev) :
    p ∈ Cli.firstEventErr events := by
  unfold Cli.chainErrors at h
  rcases List.mem_append.mp h with h | h
  · exact h
  · exfalso
    obtain ⟨i, -, hmem⟩ := List.mem_flatMap.mp h
    rcases List.mem_append.mp hmem with hmem | hmem
    · unfold Cli.payloadErrAt at hmem
      revert hmem
      split
      · split
        · simp
        · intro hmem
          simp only [List.mem_singleton] at hmem
          rw [hmem] at hk
          simp at hk
      · simp
    · obtain ⟨m, e, prev, -, hpair, -, -, -⟩ := linkErrAt_mem_shape events i p hmem
      rw [hpair] at hk
      simp at hk

/-- The first-event entry is present iff the first event has a non-null
`previousEventHash`. -/
theorem firstEventErr_mem_iff (e0 : Cli.CliEvent) (rest : List Cli.CliEvent) :
    ((0, Cli.CliErr.firstEventHasPrev) ∈ Cli.firstEventErr (e0 :: rest)
      ↔ ¬ e0.previousEventHash = none) := by
  constructor
  · intro h hnone
    unfold Cli.firstEventErr at h
    dsimp only at h
    rw [hnone] at h
    simp at h
  · intro hne
    unfold Cli.firstEventErr
    dsimp only
    rw [if_neg (by simpa using hne)]
    simp

theorem firstEvent_mem_chainErrors_iff (e0 : Cli.CliEvent) (rest : List Cli.CliEvent) :
    ((0, Cli.CliErr.firstEventHasPrev) ∈ Cli.chainErrors (e0 :: rest)
      ↔ ¬ e0.previousEventHash = none) := by
  constructor
  · intro h
    exact (firstEventErr_mem_iff e0 rest).mp (chainErrors_first_mem _ _ h rfl)
  · intro hne
    unfold Cli.chainErrors
    exact List.mem_append.mpr (Or.inl ((firstEventErr_mem_iff e0 rest).mpr hne))

/-- Characterization of the CLI's chain-break entry at index `j + 1`. -/
theorem chainBreak_mem_iff (events : List Cli.CliEvent) (prev e : Cli.CliEvent) (j : Nat)
    (hp : events[j]? = some prev) (he : events[j + 1]? = some e) :
    ((j + 1, Cli.CliErr.chainBreak) ∈ Cli.chainErrors events
      ↔ ¬ e.previousEventHash = some prev.payloadHash) := by
  constructor
  · intro h heq
    unfold Cli.chainErrors at h
    rcases List.mem_append.mp h with h | h
    · rcases events with - | ⟨e0, rest⟩
      · simp [Cli.firstEventErr] at h
      · unfold Cli.firstEventErr at h
        revert h
        split <;> simp
    · obtain ⟨i, -, hmem⟩ := List.mem_flatMap.mp h
      rcases List.mem_append.mp hmem with hmem | hmem
      · exact chainBreak_not_mem_payloadErrAt events i _ hmem
      · obtain ⟨m, e', prev', -, hpair, he', hprev', hbeq⟩ :=
          linkErrAt_mem_shape events i _ hmem
        have hm : m = j := by
          have h1 := (Prod.mk.injEq _ _ _ _).mp hpair
          omega
        subst hm
        rw [he] at he'
        rw [hp] at hprev'
        obtain rfl : e = e' := by injection he'
        obtain rfl : prev = prev' := by injection hprev'
        rw [heq] at hbeq
        simp at hbeq
  · intro hne
    have hlen : j + 1 < events.length := by
      by_contra hge
      rw [List.getElem?_eq_none (Nat.le_of_not_lt hge)] at he
      exact Option.noConfusion he
    unfold Cli.chainErrors
    refine List.mem_append.mpr (Or.inr (List.mem_flatMap.mpr
      ⟨j + 1, List.mem_range.mpr hlen, List.mem_append.mpr (Or.inr ?_)⟩))
    simp only [Cli.linkErrAt]
    rw [he, hp]
    dsimp only
    rw [if_neg (by simpa using hne)]
    simp

/-- For a nonempty input the CLI result's error list is `chainErrors`. -/
theorem verifyHashChain_errors (events : List Cli.CliEvent) (h : events ≠ []) :
    (Cli.verifyHashChain events).errors = Cli.chainErrors events := by
  unfold Cli.verifyHashChain
  rw [if_neg fun hc => h (List.isEmpty_iff.mp hc)]

/-- The loop of the crypto package's verifier, characterized by indices. -/
theorem chainLinksOk_iff (p : Crypto.AuditEventRec) (l : List Crypto.AuditEventRec) :
    Crypto.chainLinksOk p l = true ↔
      ∀ (j : Nat) (prev e : Crypto.AuditEventRec),
        (p :: l)[j]? = some prev → (p :: l)[j + 1]? = some e →
        e.previous_event_hash
          = some (Crypto.generateChainHash prev.payload_hash prev.previous_event_hash) := by
  induction l generalizing p with
  | nil =>
      simp only [Crypto.chainLinksOk, true_iff]
      intro j prev e hp he
      rcases j with - | m
      · simp at he
      · simp at hp
  | cons y rest ih =>
      simp only [Crypto.chainLinksOk, Bool.and_eq_true, beq_iff_eq]
      constructor
      · rintro ⟨h1, h2⟩ j prev e hp he
        rcases j with - | m
        · simp only [List.getElem?_cons_zero, List.getElem?_cons_succ,
            Option.some.injEq] at hp he
          subst hp
          subst he
          exact h1
        · exact (ih y).mp h2 m prev e (by simpa using hp) (by simpa using he)
      · intro h
        refine ⟨h 0 p y (by simp) (by simp), (ih y).mpr fun m prev e hp he =>
          h (m + 1) prev e (by simpa using hp) (by simpa using he)⟩

/-- Claim C3, as stated, is false for the standalone CLI verifier: a
second event whose `previousEventHash` equals
`chainHash(event[0].payloadHash, event[0].previousEventHash)` — exactly
the link the claim says is accepted — is reported as a chain break,
because the CLI compares against the previous event's `payloadHash`
directly. -/
theorem cli_rejects_chainHash_link :
    (⟨.prim (.str "y"), "cd", some (Crypto.generateChainHash "ab" none)⟩ :
        Cli.CliEvent).previousEventHash
      = some (Crypto.generateChainHash
          (⟨.prim (.str "x"), "ab", none⟩ : Cli.CliEvent).payloadHash
          (⟨.prim (.str "x"), "ab", none⟩ : Cli.CliEvent).previousEventHash)
    ∧ (1, Cli.CliErr.chainBreak) ∈
        (Cli.verifyHashChain
          [⟨.prim (.str "x"), "ab", none⟩,
           ⟨.prim (.str "y"), "cd", some (Crypto.generateChainHash "ab" none)⟩]).errors
    ∧ (Cli.verifyHashChain
          [⟨.prim (.str "x"), "ab", none⟩,
           ⟨.prim (.str "y"), "cd", some (Crypto.generateChainHash "ab" none)⟩]).valid
        = false :=
  ⟨rfl, by decide, by decide⟩

/-- Claim C3, amended: the two verifiers disagree on the link rule.  The
standalone CLI accepts event `j+1` as correctly linked if and only if its
`previousEventHash` equals event `j`'s `payloadHash` (direct comparison,
no chain hash), and accepts event 0 iff its `previousEventHash` is null;
the crypto package's `verifyHashChain` is the implementation that accepts
a sequence iff event 0 has no `previousEventHash` and every later event's
`previousEventHash` equals
`chainHash(event[i-1].payloadHash, event[i-1].previousEventHash)`. -/
theorem verifier_link_rules :
    (∀ (events : List Cli.CliEvent) (prev e : Cli.CliEvent) (j : Nat),
        events[j]? = some prev → events[j + 1]? = some e →
        (((j + 1, Cli.CliErr.chainBreak) ∉ (Cli.verifyHashChain events).errors)
          ↔ e.previousEventHash = some prev.payloadHash))
    ∧ (∀ (e0 : Cli.CliEvent) (rest : List Cli.CliEvent),
        ((0, Cli.CliErr.firstEventHasPrev) ∉ (Cli.verifyHashChain (e0 :: rest)).errors)
          ↔ e0.previousEventHash = none)
    ∧ (∀ events : List Crypto.AuditEventRec,
        Crypto.verifyHashChain events = true ↔
          ((∀ e0, events.head? = some e0 → e0.previous_event_hash = none)
           ∧ (∀ (j : Nat) (prev e : Crypto.AuditEventRec),
                events[j]? = some prev → events[j + 1]? = some e →
                e.previous_event_hash
                  = some (Crypto.generateChainHash prev.payload_hash
                      prev.previous_event_hash)))) := by
  refine ⟨?_, ?_, ?_⟩
  · intro events prev e j hp he
    have hne : events ≠ [] := by
      intro hnil
      rw [hnil] at he
      simp at he
    rw [verifyHashChain_errors events hne]
    constructor
    · intro hnot
      by_contra hneq
      exact hnot ((chainBreak_mem_iff events prev e j hp he).mpr hneq)
    · intro heq hmem
      exact (chainBreak_mem_iff events prev e j hp he).mp hmem heq
  · intro e0 rest
    rw [verifyHashChain_errors (e0 :: rest) (by simp)]
    constructor
    · intro hnot
      by_contra hneq
      exact hnot ((firstEvent_mem_chainErrors_iff e0 rest).mpr hneq)
    · intro heq hmem
      exact (firstEvent_mem_chainErrors_iff e0 rest).mp hmem heq
  · intro events
    rcases events with - | ⟨e0, rest⟩
    · simp only [Crypto.verifyHashChain, true_iff]
      constructor
      · intro e0 h
        simp at h
      · intro j prev e hp
        simp at hp
    · simp only [Crypto.verifyHashChain, Bool.and_eq_true, beq_iff_eq,
        chainLinksOk_iff e0 rest]
      constructor
      · rintro ⟨h1, h2⟩
        exact ⟨fun x hx => by cases hx; exact h1, h2⟩
      · rintro ⟨h1, h2⟩
        exact ⟨h1 e0 rfl, h2⟩

theorem verifier_link_rules_witness :
    ((1, Cli.CliErr.chainBreak) ∉
      (Cli.verifyHashChain
        [⟨.prim (.str "x"), "ab", none⟩, ⟨.prim (.str "y"), "cd", some "ab"⟩]).errors) :=
  (verifier_link_rules.1
    [⟨.prim (.str "x"), "ab", none⟩, ⟨.prim (.str "y"), "cd", some "ab"⟩]
    ⟨.prim (.str "x"), "ab", none⟩ ⟨.prim (.str "y"), "cd", some "ab"⟩ 0 rfl rfl).mpr rfl

/-! ## Claim C4 (payload-tamper detection) -/

/-- A five-event chain whose links are built with `generateChainHash`, as
the spec's `append` would produce them. -/
def c4payload (i : Int) : JVal := .obj [("id", .num i)]

def c4e0 : Crypto.AuditEventRec :=
  ⟨c4payload 0, Crypto.generateHash (c4payload 0), none⟩

def c4e1 : Crypto.AuditEventRec :=
  ⟨c4payload 1, Crypto.generateHash (c4payload 1),
   some (Crypto.generateChainHash c4e0.payload_hash c4e0.previous_event_hash)⟩

def c4e2 : Crypto.AuditEventRec :=
  ⟨c4payload 2, Crypto.generateHash (c4payload 2),
   some (Crypto.generateChainHash c4e1.payload_hash c4e1.previous_event_hash)⟩

def c4e3 : Crypto.AuditEventRec :=
  ⟨c4payload 3, Crypto.generateHash (c4payload 3),
   some (Crypto.generateChainHash c4e2.payload_hash c4e2.previous_event_hash)⟩

def c4e4 : Crypto.AuditEventRec :=
  ⟨c4payload 4, Crypto.generateHash (c4payload 4),
   some (Crypto.generateChainHash c4e3.payload_hash c4e3.previous_event_hash)⟩

/-- Event 2 with its payload mutated in place (hash fields untouched). -/
def c4e2mut : Crypto.AuditEventRec := { c4e2 with payload := c4payload 99 }

/-- Claim C4, as stated, is false for the crypto package's
`verifyHashChain` (the implementation behind the audit-verify endpoint):
on a chain of events e0..e4 with `append`-style links, mutating e2's
payload in place leaves the verdict at valid = true — the function never
reads payloads — even though e2's stored payloadHash no longer matches a
hash freshly recomputed from its payload (by either hash routine). -/
theorem crypto_verifier_misses_payload_tampering :
    Crypto.verifyHashChain [c4e0, c4e1, c4e2, c4e3, c4e4] = true
    ∧ Crypto.verifyHashChain [c4e0, c4e1, c4e2mut, c4e3, c4e4] = true
    ∧ c4e2mut.payload_hash ≠ Crypto.generateHash c4e2mut.payload
    ∧ c4e2mut.payload_hash ≠ Cli.computePayloadHash c4e2mut.payload := by
  refine ⟨?_, ?_, by decide, by decide⟩
  · simp [Crypto.verifyHashChain, Crypto.chainLinksOk, c4e1, c4e2, c4e3, c4e4, c4e0]
  · simp [Crypto.verifyHashChain, Crypto.chainLinksOk, c4e1, c4e2, c4e3, c4e4, c4e0, c4e2mut]

/-- The crypto verifier's loop depends only on the two hash fields. -/
theorem chainLinksOk_congr (p1 p2 : Crypto.AuditEventRec)
    (l1 l2 : List Crypto.AuditEventRec)
    (hph : p1.payload_hash = p2.payload_hash)
    (hpe : p1.previous_event_hash = p2.previous_event_hash)
    (hl : l1.map (fun e => (e.payload_hash, e.previous_event_hash))
        = l2.map (fun e => (e.payload_hash, e.previous_event_hash))) :
    Crypto.chainLinksOk p1 l1 = Crypto.chainLinksOk p2 l2 := by
  induction l1 generalizing p1 p2 l2 with
  | nil =>
      cases l2 with
      | nil => rfl
      | cons y2 rest2 => simp at hl
  | cons y1 rest1 ih =>
      cases l2 with
      | nil => simp at hl
      | cons y2 rest2 =>
          simp only [List.map_cons, List.cons.injEq, Prod.mk.injEq] at hl
          obtain ⟨⟨hy1, hy2⟩, hrest⟩ := hl
          simp only [Crypto.chainLinksOk]
          rw [hy2, hph, hpe, ih y1 y2 rest2 hy1 hy2 hrest]

/-- Claim C4, amended: only the standalone CLI performs the payload-hash
recomputation — whenever some event's stored `payloadHash` differs from a
hash freshly recomputed from that event's payload, the CLI reports the
sequence invalid and its error list identifies the offending index —
while the crypto package's `verifyHashChain` (behind the audit-verify
endpoint) reads only `payload_hash` and `previous_event_hash`, so its
verdict is unchanged by any payload mutation. -/
theorem payload_tamper_detection :
    (∀ (events : List Cli.CliEvent) (i : Nat) (e : Cli.CliEvent),
        events[i]? = some e →
        Cli.computePayloadHash e.payload ≠ e.payloadHash →
        (Cli.verifyHashChain events).valid = false
        ∧ (i, Cli.CliErr.payloadHashMismatch) ∈ (Cli.verifyHashChain events).errors)
    ∧ (∀ events1 events2 : List Crypto.AuditEventRec,
        events1.map (fun e => (e.payload_hash, e.previous_event_hash))
          = events2.map (fun e => (e.payload_hash, e.previous_event_hash)) →
        Crypto.verifyHashChain events1 = Crypto.verifyHashChain events2) := by
  constructor
  · intro events i e he hne
    have hlen : i < events.length := by
      by_contra hge
      rw [List.getElem?_eq_none (Nat.le_of_not_lt hge)] at he
      exact Option.noConfusion he
    have hmem : (i, Cli.CliErr.payloadHashMismatch) ∈ Cli.chainErrors events := by
      unfold Cli.chainErrors
      refine List.mem_append.mpr (Or.inr (List.mem_flatMap.mpr
        ⟨i, List.mem_range.mpr hlen, List.mem_append.mpr (Or.inl ?_)⟩))
      unfold Cli.payloadErrAt
      rw [he]
      dsimp only
      rw [if_neg (by simpa using hne)]
      simp
    have hnonempty : events ≠ [] := by
      intro hnil
      rw [hnil] at he
      simp at he
    constructor
    · unfold Cli.verifyHashChain
      rw [if_neg fun hc => hnonempty (List.isEmpty_iff.mp hc)]
      cases hl : Cli.chainErrors events with
      | nil => rw [hl] at hmem; simp at hmem
      | cons x xs => simp [hl]
    · rw [verifyHashChain_errors events hnonempty]
      exact hmem
  · intro l1 l2 h
    cases l1 with
    | nil =>
        cases l2 with
        | nil => rfl
        | cons y2 rest2 => simp at h
    | cons y1 rest1 =>
        cases l2 with
        | nil => simp at h
        | cons y2 rest2 =>
            simp only [List.map_cons, List.cons.injEq, Prod.mk.injEq] at h
            obtain ⟨⟨hy1, hy2⟩, hrest⟩ := h
            simp only [Crypto.verifyHashChain]
            rw [hy2, chainLinksOk_congr y1 y2 rest1 rest2 hy1 hy2 hrest]

theorem payload_tamper_detection_witness :
    ((Cli.verifyHashChain [⟨.prim (.str "x"), "deadbeef", none⟩]).valid = false
      ∧ (0, Cli.CliErr.payloadHashMismatch) ∈
          (Cli.verifyHashChain [⟨.prim (.str "x"), "deadbeef", none⟩]).errors)
    ∧ Crypto.verifyHashChain [⟨.prim (.str "p"), "h1", none⟩]
        = Crypto.verifyHashChain [⟨.prim (.str "q"), "h1", none⟩] :=
  ⟨payload_tamper_detection.1 [⟨.prim (.str "x"), "deadbeef", none⟩] 0
      ⟨.prim (.str "x"), "deadbeef", none⟩ rfl (by decide),
   payload_tamper_detection.2 [⟨.prim (.str "p"), "h1", none⟩]
      [⟨.prim (.str "q"), "h1", none⟩] rfl⟩

/-! ## Claim C6 (payload hash vs key insertion order) -/

theorem charToNat_inj (a b : Char) (h : a.toNat = b.toNat) : a = b := by
  rcases a with ⟨⟨a, ha⟩, pa⟩
  rcases b with ⟨⟨b, hb⟩, pb⟩
  simp [Char.toNat, UInt32.toNat] at h
  subst h
  rfl

theorem charListLe_total : ∀ a b, (Cli.charListLe a b || Cli.charListLe b a) = true := by
  intro a
  induction a with
  | nil => intro b; simp [Cli.charListLe]
  | cons x as ih =>
      intro b
      cases b with
      | nil => simp [Cli.charListLe]
      | cons y bs =>
          simp only [Cli.charListLe]
          by_cases h1 : x.toNat < y.toNat
          · rw [if_pos h1]
            simp
          · by_cases h2 : y.toNat < x.toNat
            · rw [if_neg h1, if_pos h2, if_pos h2]
              simp
            · rw [if_neg h1, if_neg h2, if_neg h2, if_neg h1]
              exact ih bs

theorem charListLe_trans : ∀ a b c, Cli.charListLe a b = true → Cli.charListLe b c = true →
    Cli.charListLe a c = true := by
  intro a
  induction a with
  | nil => intro b c _ _; simp [Cli.charListLe]
  | cons x as ih =>
      intro b c h1 h2
      cases b with
      | nil => simp [Cli.charListLe] at h1
      | cons y bs =>
          cases c with
          | nil => simp [Cli.charListLe] at h2
          | cons z cs =>
              simp only [Cli.charListLe] at h1 h2 ⊢
              by_cases hxy : x.toNat < y.toNat
              · by_cases hyz : y.toNat < z.toNat
                · rw [if_pos (hxy.trans hyz)]
                · rw [if_neg hyz] at h2
                  by_cases hzy : z.toNat < y.toNat
                  · rw [if_pos hzy] at h2
                    exact absurd h2 (by simp)
                  · have hyz' : y.toNat = z.toNat := by omega
                    rw [if_pos (hyz' ▸ hxy)]
              · rw [if_neg hxy] at h1
                by_cases hyx : y.toNat < x.toNat
                · rw [if_pos hyx] at h1
                  exact absurd h1 (by simp)
                · have hxy' : x.toNat = y.toNat := by omega
                  rw [if_neg hyx] at h1
                  by_cases hyz : y.toNat < z.toNat
                  · rw [if_pos (hxy' ▸ hyz)]
                  · rw [if_neg hyz] at h2
                    by_cases hzy : z.toNat < y.toNat
                    · rw [if_pos hzy] at h2
                      exact absurd h2 (by simp)
                    · rw [if_neg hzy] at h2
                      rw [if_neg (by omega), if_neg (by omega)]
                      exact ih bs cs h1 h2

theorem charListLe_antisymm : ∀ a b, Cli.charListLe a b = true → Cli.charListLe b a = true →
    a = b := by
  intro a
  induction a with
  | nil =>
      intro b _ h2
      cases b with
      | nil => rfl
      | cons y bs => simp [Cli.charListLe] at h2
  | cons x as ih =>
      intro b h1 h2
      cases b with
      | nil => simp [Cli.charListLe] at h1
      | cons y bs =>
          simp only [Cli.charListLe] at h1 h2
          by_cases hxy : x.toNat < y.toNat
          · rw [if_neg (show ¬ y.toNat < x.toNat by omega), if_pos hxy] at h2
            exact absurd h2 (by simp)
          · by_cases hyx : y.toNat < x.toNat
            · rw [if_neg hxy, if_pos hyx] at h1
              exact absurd h1 (by simp)
            · rw [if_neg hxy, if_neg hyx] at h1
              rw [if_neg hyx, if_neg hxy] at h2
              rw [charToNat_inj x y (by omega), ih bs h1 h2]

instance : IsTotal String Cli.StrOrd :=
  ⟨fun a b => by
    have h := charListLe_total a.data b.data
    rcases Bool.or_eq_true_iff.mp h with h | h
    · exact Or.inl h
    · exact Or.inr h⟩

instance : IsTrans String Cli.StrOrd :=
  ⟨fun a b c h1 h2 => charListLe_trans a.data b.data c.data h1 h2⟩

instance : IsAntisymm String Cli.StrOrd :=
  ⟨fun a b h1 h2 => String.ext (charListLe_antisymm a.data b.data h1 h2)⟩

/-- Sorting the keys makes the key order canonical across permutations. -/
theorem sortKeys_eq_of_perm (l1 l2 : List String) (h : l1.Perm l2) :
    Cli.sortKeys l1 = Cli.sortKeys l2 :=
  List.eq_of_perm_of_sorted
    (((List.perm_insertionSort _ l1).trans h).trans (List.perm_insertionSort _ l2).symm)
    (List.sorted_insertionSort _ l1) (List.sorted_insertionSort _ l2)

/-- Key lookup is permutation-invariant when keys are distinct. -/
theorem lookup_eq_of_perm : ∀ (f1 f2 : List (String × JPrim)), f1.Perm f2 →
    (f1.map Prod.fst).Nodup → ∀ k, f1.lookup k = f2.lookup k := by
  intro f1 f2 h
  induction h with
  | nil => intro _ _; rfl
  | cons x h ih =>
      intro hnd k
      rcases x with ⟨ka, va⟩
      simp only [List.map_cons] at hnd
      rw [List.lookup_cons, List.lookup_cons]
      rcases h1 : k == ka <;> dsimp only
      exact ih (List.nodup_cons.mp hnd).2 k
  | swap x y l =>
      intro hnd k
      rcases x with ⟨kx, vx⟩
      rcases y with ⟨ky, vy⟩
      simp only [List.map_cons] at hnd
      have hne : ky ≠ kx := by
        have h0 := (List.nodup_cons.mp hnd).1
        intro hc
        exact h0 (hc ▸ List.mem_cons_self _ _)
      rw [List.lookup_cons, List.lookup_cons, List.lookup_cons, List.lookup_cons]
      rcases h1 : k == ky <;> rcases h2 : k == kx <;> dsimp only
      exact absurd ((beq_iff_eq.mp h2).symm.trans (beq_iff_eq.mp h1))
        (fun hc => hne hc.symm)
  | trans h1 h2 ih1 ih2 =>
      intro hnd k
      exact (ih1 hnd k).trans (ih2 ((h1.map Prod.fst).nodup hnd) k)

/-- Serializing with a fixed key list only depends on lookups. -/
theorem stringifyWithKeys_congr (keys : List String) (f1 f2 : List (String × JPrim))
    (h : ∀ k, f1.lookup k = f2.lookup k) :
    Cli.stringifyWithKeys keys (.obj f1) = Cli.stringifyWithKeys keys (.obj f2) := by
  simp only [Cli.stringifyWithKeys]
  rw [List.filterMap_congr fun k _ => by rw [h k]]

/-- Claim C6, as stated, is false for the crypto package's `generateHash`
(the hash used by the audit paths): it serializes with `JSON.stringify`
in insertion order, so the same key-value set inserted in two different
orders hashes differently. -/
theorem generateHash_insertion_order_dependent :
    ([("a", JPrim.num 1), ("b", JPrim.num 2)] : List (String × JPrim)).Perm
        [("b", JPrim.num 2), ("a", JPrim.num 1)]
    ∧ Crypto.generateHash (.obj [("a", .num 1), ("b", .num 2)])
        ≠ Crypto.generateHash (.obj [("b", .num 2), ("a", .num 1)]) :=
  ⟨List.Perm.swap ("b", JPrim.num 2) ("a", JPrim.num 1) [], by decide⟩

/-- Claim C6, amended: only the CLI's `computePayloadHash` is canonical in
the claimed sense, and only for the top-level keys it sorts: for flat
payload objects holding the same keys (distinct) with the same values in
any insertion order, the computed payload hashes are identical.  The
crypto package's `generateHash` is insertion-order-dependent. -/
theorem computePayloadHash_insertion_order_invariant
    (f1 f2 : List (String × JPrim))
    (hperm : f1.Perm f2)
    (hnd : (f1.map Prod.fst).Nodup) :
    Cli.computePayloadHash (.obj f1) = Cli.computePayloadHash (.obj f2) := by
  unfold Cli.computePayloadHash
  have hkeys : Cli.sortKeys (Cli.objKeys (.obj f1)) = Cli.sortKeys (Cli.objKeys (.obj f2)) :=
    sortKeys_eq_of_perm _ _ (hperm.map Prod.fst)
  rw [hkeys, stringifyWithKeys_congr _ f1 f2 (lookup_eq_of_perm f1 f2 hperm hnd)]

theorem computePayloadHash_insertion_order_invariant_witness :
    Cli.computePayloadHash (.obj [("a", .num 1), ("b", .num 2)])
      = Cli.computePayloadHash (.obj [("b", .num 2), ("a", .num 1)]) :=
  computePayloadHash_insertion_order_invariant
    [("a", .num 1), ("b", .num 2)] [("b", .num 2), ("a", .num 1)]
    (List.Perm.swap ("b", JPrim.num 2) ("a", JPrim.num 1) []) (by decide)

/-! ## Claim C9 (idea-vote toggle semantics) -/

theorem bumpFn_id (ideaId : Nat) (vt : Consultations.VoteType) (delta : Int)
    (idea : Consultations.Idea) :
    (Consultations.bumpFn ideaId vt delta idea).id = idea.id := by
  unfold Consultations.bumpFn
  split
  · cases vt <;> rfl
  · rfl

theorem counterFn_bumpFn_same (ideaId : Nat) (vt : Consultations.VoteType) (delta : Int)
    (idea : Consultations.Idea) (h : (idea.id == ideaId) = true) :
    Consultations.counterFn vt (Consultations.bumpFn ideaId vt delta idea)
      = Consultations.counterFn vt idea + delta := by
  cases vt <;> simp [Consultations.bumpFn, Consultations.counterFn, h]

theorem counterFn_bumpFn_other (ideaId : Nat) (vt vt' : Consultations.VoteType) (delta : Int)
    (idea : Consultations.Idea) (h : vt ≠ vt') :
    Consultations.counterFn vt' (Consultations.bumpFn ideaId vt delta idea)
      = Consultations.counterFn vt' idea := by
  cases vt <;> cases vt'
  · exact absurd rfl h
  · cases hIf : idea.id == ideaId <;>
      simp [Consultations.bumpFn, Consultations.counterFn, hIf]
  · cases hIf : idea.id == ideaId <;>
      simp [Consultations.bumpFn, Consultations.counterFn, hIf]
  · exact absurd rfl h

theorem find?_bumpCounter (ideas : List Consultations.Idea) (ideaId : Nat)
    (vt : Consultations.VoteType) (delta : Int) :
    (Consultations.bumpCounter ideas ideaId vt delta).find? (fun i => i.id == ideaId)
      = (ideas.find? fun i => i.id == ideaId).map (Consultations.bumpFn ideaId vt delta) := by
  unfold Consultations.bumpCounter
  rw [List.find?_map]
  have hpred : ((fun i : Consultations.Idea => i.id == ideaId)
      ∘ Consultations.bumpFn ideaId vt delta) = fun i : Consultations.Idea => i.id == ideaId :=
    funext fun i => by simp [Function.comp, bumpFn_id]
  rw [hpred]

/-- With no two list elements both satisfying `p`, `find?` determines
`filter`. -/
theorem filter_eq_singleton_of_find? {α : Type} (p : α → Bool) (l : List α)
    (hpw : l.Pairwise fun a b => ¬(p a = true ∧ p b = true)) (v : α)
    (hf : l.find? p = some v) : l.filter p = [v] := by
  induction l with
  | nil => simp at hf
  | cons w rest ih =>
      rcases hw : p w
      · rw [List.find?_cons_of_neg rest (by simp [hw])] at hf
        rw [List.filter_cons_of_neg (by simp [hw])]
        exact ih (List.pairwise_cons.mp hpw).2 hf
      · rw [List.find?_cons_of_pos rest hw] at hf
        obtain rfl : w = v := by injection hf
        rw [List.filter_cons_of_pos hw]
        have hrest : rest.filter p = [] := by
          rw [List.filter_eq_nil_iff]
          intro a ha hpa
          exact (List.pairwise_cons.mp hpw).1 a ha ⟨hw, hpa⟩
        rw [hrest]

theorem filter_filter_comm {α : Type} (p q : α → Bool) (l : List α) :
    (l.filter q).filter p = (l.filter p).filter q := by
  rw [List.filter_filter, List.filter_filter]
  exact List.filter_congr fun a _ => Bool.and_comm _ _

theorem otherType_of_ne (a b : Consultations.VoteType) (h : a ≠ b) :
    a = Consultations.otherType b := by
  cases a <;> cases b
  · exact absurd rfl h
  · rfl
  · rfl
  · exact absurd rfl h

theorem ne_otherType (b : Consultations.VoteType) : b ≠ Consultations.otherType b := by
  cases b <;> simp [Consultations.otherType]

theorem counterFn_sum_bumpFn (ideaId : Nat) (t : Consultations.VoteType) (delta : Int)
    (idea : Consultations.Idea) (h : (idea.id == ideaId) = true) :
    Consultations.counterFn Consultations.VoteType.upvote (Consultations.bumpFn ideaId t delta idea)
      + Consultations.counterFn Consultations.VoteType.downvote
          (Consultations.bumpFn ideaId t delta idea)
    = Consultations.counterFn Consultations.VoteType.upvote idea
      + Consultations.counterFn Consultations.VoteType.downvote idea + delta := by
  cases t <;> simp [Consultations.bumpFn, Consultations.counterFn, h] <;> ring

/-- Claim C9: the toggle semantics of `voteOnIdea`.  With the
`UNIQUE(idea_id, user_id)` invariant and the idea present, every call
succeeds and: with no existing vote it inserts one row and increments the
matching counter; casting the same type as the existing vote removes the
row and decrements that counter by one; casting the opposite type keeps
exactly one row with the new type, increments the new counter and
decrements the old one (so upvotes + downvotes is unchanged); and the
at-most-one-vote-per-(idea, user) invariant is preserved in every case. -/
theorem voteOnIdea_toggle_semantics
    (db : Consultations.ConsDb) (pollId : String) (ideaId : Nat) (userId : String)
    (vt : Consultations.VoteType) (idea : Consultations.Idea)
    (hU : Consultations.UniqueIdeaUser db.ideaVotes)
    (hguard : (db.ideas.any fun i => i.id == ideaId && i.pollId == pollId) = true)
    (hidea : (db.ideas.find? fun i => i.id == ideaId) = some idea) :
    ((db.ideaVotes.find? fun v => v.ideaId == ideaId && v.userId == userId) = none →
      ∃ db', Consultations.voteOnIdea db pollId ideaId userId vt = .ok db'
        ∧ Consultations.UniqueIdeaUser db'.ideaVotes
        ∧ (Consultations.ideaVotesFor db' ideaId userId).map (·.voteType) = [vt]
        ∧ Consultations.counterOf db' ideaId vt = Consultations.counterOf db ideaId vt + 1
        ∧ Consultations.counterOf db' ideaId (Consultations.otherType vt)
            = Consultations.counterOf db ideaId (Consultations.otherType vt))
    ∧ (∀ v, (db.ideaVotes.find? fun v => v.ideaId == ideaId && v.userId == userId) = some v →
        v.voteType = vt →
      ∃ db', Consultations.voteOnIdea db pollId ideaId userId vt = .ok db'
        ∧ Consultations.UniqueIdeaUser db'.ideaVotes
        ∧ Consultations.ideaVotesFor db' ideaId userId = []
        ∧ Consultations.counterOf db' ideaId vt = Consultations.counterOf db ideaId vt - 1
        ∧ Consultations.counterOf db' ideaId (Consultations.otherType vt)
            = Consultations.counterOf db ideaId (Consultations.otherType vt))
    ∧ (∀ v, (db.ideaVotes.find? fun v => v.ideaId == ideaId && v.userId == userId) = some v →
        v.voteType ≠ vt →
      ∃ db', Consultations.voteOnIdea db pollId ideaId userId vt = .ok db'
        ∧ Consultations.UniqueIdeaUser db'.ideaVotes
        ∧ (Consultations.ideaVotesFor db' ideaId userId).map (·.voteType) = [vt]
        ∧ Consultations.counterOf db' ideaId vt = Consultations.counterOf db ideaId vt + 1
        ∧ Consultations.counterOf db' ideaId (Consultations.otherType vt)
            = Consultations.counterOf db ideaId (Consultations.otherType vt) - 1
        ∧ Consultations.counterOf db' ideaId Consultations.VoteType.upvote
            + Consultations.counterOf db' ideaId Consultations.VoteType.downvote
          = Consultations.counterOf db ideaId Consultations.VoteType.upvote
            + Consultations.counterOf db ideaId Consultations.VoteType.downvote) := by
  have hguard' : ¬¬((db.ideas.any fun i => i.id == ideaId && i.pollId == pollId) = true) := by
    simp [hguard]
  have hidable : (idea.id == ideaId) = true :=
    @List.find?_some _ (fun i => i.id == ideaId) idea db.ideas hidea
  have hpw : db.ideaVotes.Pairwise fun a b =>
      ¬((a.ideaId == ideaId && a.userId == userId) = true
        ∧ (b.ideaId == ideaId && b.userId == userId) = true) :=
    hU.imp fun hr hab => by
      obtain ⟨ha, hb⟩ := hab
      rw [Bool.and_eq_true] at ha hb
      obtain ⟨ha1, ha2⟩ := ha
      obtain ⟨hb1, hb2⟩ := hb
      exact hr ⟨(beq_iff_eq.mp ha1).trans (beq_iff_eq.mp hb1).symm,
                (beq_iff_eq.mp ha2).trans (beq_iff_eq.mp hb2).symm⟩
  have hbase : ∀ vt' : Consultations.VoteType,
      Consultations.counterOf db ideaId vt' = Consultations.counterFn vt' idea := by
    intro vt'
    unfold Consultations.counterOf
    rw [hidea]
  have hcount1 : ∀ (vt2 : Consultations.VoteType) (delta : Int)
      (votes' : List Consultations.IdeaVote) (n' : Nat) (vt' : Consultations.VoteType),
      Consultations.counterOf
          ⟨Consultations.bumpCounter db.ideas ideaId vt2 delta, votes', n'⟩ ideaId vt'
        = Consultations.counterFn vt' (Consultations.bumpFn ideaId vt2 delta idea) := by
    intro vt2 delta votes' n' vt'
    unfold Consultations.counterOf
    dsimp only
    rw [find?_bumpCounter, hidea]
    rfl
  have hcount2 : ∀ (vtA : Consultations.VoteType) (deltaA : Int)
      (vtB : Consultations.VoteType) (deltaB : Int)
      (votes' : List Consultations.IdeaVote) (n' : Nat) (vt' : Consultations.VoteType),
      Consultations.counterOf
          ⟨Consultations.bumpCounter
              (Consultations.bumpCounter db.ideas ideaId vtA deltaA) ideaId vtB deltaB,
            votes', n'⟩ ideaId vt'
        = Consultations.counterFn vt'
            (Consultations.bumpFn ideaId vtB deltaB
              (Consultations.bumpFn ideaId vtA deltaA idea)) := by
    intro vtA deltaA vtB deltaB votes' n' vt'
    unfold Consultations.counterOf
    dsimp only
    rw [find?_bumpCounter, find?_bumpCounter, hidea]
    rfl
  refine ⟨?_, ?_, ?_⟩
  · -- no existing vote: insert
    intro hnone
    refine ⟨⟨Consultations.bumpCounter db.ideas ideaId vt 1,
      db.ideaVotes ++ [⟨db.nextVoteId, ideaId, userId, vt⟩],
      db.nextVoteId + 1⟩, ?_, ?_, ?_, ?_, ?_⟩
    · unfold Consultations.voteOnIdea
      rw [if_neg hguard', hnone]
    · -- uniqueness preserved
      unfold Consultations.UniqueIdeaUser
      dsimp only
      rw [List.pairwise_append]
      refine ⟨hU, List.pairwise_singleton _ _, ?_⟩
      intro a ha b hb
      simp only [List.mem_singleton] at hb
      subst hb
      rintro ⟨haid, hauser⟩
      exact List.find?_eq_none.mp hnone a ha (by simp [haid, hauser])
    · -- exactly the new row
      unfold Consultations.ideaVotesFor
      dsimp only
      rw [List.filter_append,
        List.filter_eq_nil_iff.mpr (List.find?_eq_none.mp hnone)]
      simp
    · rw [hcount1, hbase, counterFn_bumpFn_same _ _ _ _ hidable]
    · rw [hcount1, hbase, counterFn_bumpFn_other _ _ _ _ _ (ne_otherType vt)]
  · -- same type: toggle off
    intro v hfind hveq
    have hsingle : db.ideaVotes.filter
        (fun w => w.ideaId == ideaId && w.userId == userId) = [v] :=
      filter_eq_singleton_of_find? _ db.ideaVotes hpw v hfind
    refine ⟨⟨Consultations.bumpCounter db.ideas ideaId vt (-1),
      db.ideaVotes.filter fun w => w.id != v.id, db.nextVoteId⟩, ?_, ?_, ?_, ?_, ?_⟩
    · unfold Consultations.voteOnIdea
      rw [if_neg hguard', hfind]
      dsimp only
      rw [if_pos hveq]
    · exact hU.filter _
    · unfold Consultations.ideaVotesFor
      dsimp only
      rw [filter_filter_comm, hsingle]
      simp
    · rw [hcount1, hbase, counterFn_bumpFn_same _ _ _ _ hidable]
      omega
    · rw [hcount1, hbase, counterFn_bumpFn_other _ _ _ _ _ (ne_otherType vt)]
  · -- opposite type: flip
    intro v hfind hvne
    have hvother : v.voteType = Consultations.otherType vt := otherType_of_ne _ _ hvne
    have hsingle : db.ideaVotes.filter
        (fun w => w.ideaId == ideaId && w.userId == userId) = [v] :=
      filter_eq_singleton_of_find? _ db.ideaVotes hpw v hfind
    have hkeys : ∀ w : Consultations.IdeaVote,
        ((if (w.id == v.id) = true then { w with voteType := vt } else w) :
            Consultations.IdeaVote).ideaId = w.ideaId
        ∧ ((if (w.id == v.id) = true then { w with voteType := vt } else w) :
            Consultations.IdeaVote).userId = w.userId := by
      intro w
      split <;> exact ⟨rfl, rfl⟩
    have hinner : ((Consultations.bumpFn ideaId v.voteType (-1) idea).id == ideaId) = true := by
      rw [bumpFn_id]
      exact hidable
    refine ⟨⟨Consultations.bumpCounter
        (Consultations.bumpCounter db.ideas ideaId v.voteType (-1)) ideaId vt 1,
      db.ideaVotes.map fun w => if w.id == v.id then { w with voteType := vt } else w,
      db.nextVoteId⟩, ?_, ?_, ?_, ?_, ?_, ?_⟩
    · unfold Consultations.voteOnIdea
      rw [if_neg hguard', hfind]
      dsimp only
      rw [if_neg hvne]
    · unfold Consultations.UniqueIdeaUser
      dsimp only
      rw [List.pairwise_map]
      refine hU.imp fun hr hc => ?_
      apply hr
      rw [(hkeys _).1, (hkeys _).1, (hkeys _).2, (hkeys _).2] at hc
      exact hc
    · unfold Consultations.ideaVotesFor
      dsimp only
      rw [List.filter_map]
      have hpred : ((fun w : Consultations.IdeaVote =>
            w.ideaId == ideaId && w.userId == userId)
          ∘ fun w => if (w.id == v.id) = true then { w with voteType := vt } else w)
          = fun w : Consultations.IdeaVote => w.ideaId == ideaId && w.userId == userId := by
        funext w
        simp only [Function.comp]
        rw [(hkeys w).1, (hkeys w).2]
      rw [hpred, hsingle]
      simp
    · rw [hcount2, hbase, counterFn_bumpFn_same _ _ _ _ hinner,
        counterFn_bumpFn_other _ _ _ _ _ hvne]
    · rw [hcount2, hbase,
        counterFn_bumpFn_other _ _ _ _ _ (ne_otherType vt),
        hvother, counterFn_bumpFn_same _ _ _ _ hidable]
      omega
    · rw [hcount2, hcount2, hbase, hbase]
      have hs1 := counterFn_sum_bumpFn ideaId vt 1
        (Consultations.bumpFn ideaId v.voteType (-1) idea) hinner
      have hs2 := counterFn_sum_bumpFn ideaId v.voteType (-1) idea hidable
      omega

def c9idea0 : Consultations.Idea := ⟨1, "P", "t", 1, 0, "submitted", 5⟩

def c9v0 : Consultations.IdeaVote := ⟨7, 1, "alice", .upvote⟩

def c9db0 : Consultations.ConsDb := ⟨[c9idea0], [c9v0], 8⟩

def c9dbRes : Consultations.ConsDb :=
  ⟨[⟨1, "P", "t", 0, 1, "submitted", 5⟩], [⟨7, 1, "alice", .downvote⟩], 8⟩

theorem voteOnIdea_toggle_semantics_witness :
    Consultations.UniqueIdeaUser c9dbRes.ideaVotes
    ∧ (Consultations.ideaVotesFor c9dbRes 1 "alice").map (·.voteType)
        = [Consultations.VoteType.downvote]
    ∧ Consultations.counterOf c9dbRes 1 Consultations.VoteType.downvote
        = Consultations.counterOf c9db0 1 Consultations.VoteType.downvote + 1 := by
  obtain ⟨db', h1, h2, h3, h4, h5, h6⟩ :=
    (voteOnIdea_toggle_semantics c9db0 "P" 1 "alice" .downvote c9idea0
      (by unfold Consultations.UniqueIdeaUser c9db0; exact List.pairwise_singleton _ _)
      (by decide) (by decide)).2.2 c9v0 (by decide) (by decide)
  have h0 : Consultations.voteOnIdea c9db0 "P" 1 "alice" .downvote = .ok c9dbRes := by decide
  rw [h1] at h0
  have hdb : db' = c9dbRes := by injection h0
  subst hdb
  exact ⟨h2, h3, h4⟩

/-! ## Claim C7 (stage 1 → 2 guard and shortlisting) -/

theorem markShortlisted_fields (chosen : List Nat) (i : Consultations.Idea) :
    (Consultations.markShortlisted chosen i).id = i.id
    ∧ (Consultations.markShortlisted chosen i).pollId = i.pollId
    ∧ (Consultations.markShortlisted chosen i).upvotes = i.upvotes
    ∧ (Consultations.markShortlisted chosen i).downvotes = i.downvotes
    ∧ (Consultations.markShortlisted chosen i).createdAt = i.createdAt := by
  unfold Consultations.markShortlisted
  split <;> exact ⟨rfl, rfl, rfl, rfl, rfl⟩

theorem mark_g_fields (chosen : List Nat) (P : String) (i : Consultations.Idea) :
    (Consultations.markRejected P (Consultations.markShortlisted chosen i)).id = i.id
    ∧ (Consultations.markRejected P (Consultations.markShortlisted chosen i)).pollId = i.pollId
    ∧ (Consultations.markRejected P (Consultations.markShortlisted chosen i)).upvotes
        = i.upvotes
    ∧ (Consultations.markRejected P (Consultations.markShortlisted chosen i)).downvotes
        = i.downvotes
    ∧ (Consultations.markRejected P (Consultations.markShortlisted chosen i)).createdAt
        = i.createdAt := by
  unfold Consultations.markShortlisted Consultations.markRejected
  split <;> split <;> exact ⟨rfl, rfl, rfl, rfl, rfl⟩

theorem mark_status_chosen (chosen : List Nat) (P : String) (i : Consultations.Idea)
    (hc : chosen.contains i.id = true) :
    (Consultations.markRejected P (Consultations.markShortlisted chosen i)).status
      = "shortlisted" := by
  unfold Consultations.markShortlisted
  rw [if_pos hc]
  unfold Consultations.markRejected
  rw [if_neg (by simp)]

theorem mark_status_notchosen (chosen : List Nat) (P : String) (i : Consultations.Idea)
    (hc : chosen.contains i.id = false)
    (hp : (i.pollId == P) = true) (hs : i.status = "submitted") :
    (Consultations.markRejected P (Consultations.markShortlisted chosen i)).status
      = "rejected" := by
  unfold Consultations.markShortlisted
  rw [if_neg (by rw [hc]; exact Bool.false_ne_true)]
  unfold Consultations.markRejected
  rw [if_pos (by simp [hp, hs])]

theorem ideaOrd_mark (chosen : List Nat) (P : String) (a b : Consultations.Idea)
    (h : Consultations.IdeaOrd a b) :
    Consultations.IdeaOrd (Consultations.markRejected P (Consultations.markShortlisted chosen a))
      (Consultations.markRejected P (Consultations.markShortlisted chosen b)) := by
  have ha := mark_g_fields chosen P a
  have hb := mark_g_fields chosen P b
  unfold Consultations.IdeaOrd Consultations.ideaScore at h ⊢
  rw [ha.2.2.1, ha.2.2.2.1, ha.2.2.2.2, hb.2.2.1, hb.2.2.2.1, hb.2.2.2.2]
  exact h

/-- Claim C7, as stated, is false: with minIdeasForStage2 = 1,
shortlistSize = 2 and a single submitted idea, the transition to
shortlist_selection succeeds but marks only 1 idea as shortlisted — not
"exactly the top shortlistSize (= 2) ideas" (the SQL `LIMIT` takes at most
the available rows). -/
theorem transition_shortlists_min_of_size :
    (⟨"P", Consultations.Stage.idea_collection, 1, 2⟩ :
        Consultations.StageRow).shortlistSize = 2
    ∧ (Consultations.transitionStage
          ⟨[⟨1, "P", "t", 0, 0, "submitted", 1⟩], [], 1⟩
          ⟨"P", Consultations.Stage.idea_collection, 1, 2⟩
          Consultations.Stage.shortlist_selection).map
        (fun r => Consultations.countStatus r.db "P" "shortlisted") = .ok 1 :=
  ⟨rfl, by decide⟩

/-- Claim C7, amended: in stage idea_collection (where every one of the
poll's ideas still has status 'submitted' and ids are unique), the
transition to shortlist_selection fails with a state error carrying the
threshold and the current count whenever the poll's idea count is below
minIdeasForStage2; otherwise it succeeds, marks exactly the top
min(shortlistSize, ideaCount) ideas — by score = upvotes − downvotes
descending, ties broken by earliest submission — as shortlisted, marks
every other idea of the poll rejected (none stays 'submitted'), and every
shortlisted idea ranks at least as high as every rejected one. -/
theorem transitionStage_shortlist_rules
    (db : Consultations.ConsDb) (stage : Consultations.StageRow)
    (hstage : stage.currentStage = Consultations.Stage.idea_collection)
    (hnodup : (db.ideas.map (·.id)).Nodup)
    (hstatus : ∀ i ∈ Consultations.pollIdeas db stage.pollId, i.status = "submitted") :
    ((Consultations.pollIdeas db stage.pollId).length < stage.minIdeasForStage2 →
      Consultations.transitionStage db stage Consultations.Stage.shortlist_selection
        = .error (.belowMinIdeas stage.minIdeasForStage2
            (Consultations.pollIdeas db stage.pollId).length))
    ∧ (stage.minIdeasForStage2 ≤ (Consultations.pollIdeas db stage.pollId).length →
      ∃ res, Consultations.transitionStage db stage Consultations.Stage.shortlist_selection
          = .ok res
        ∧ res.stage.currentStage = Consultations.Stage.shortlist_selection
        ∧ Consultations.countStatus res.db stage.pollId "shortlisted"
            = min stage.shortlistSize (Consultations.pollIdeas db stage.pollId).length
        ∧ (∀ x ∈ Consultations.pollIdeas res.db stage.pollId,
            x.status = "shortlisted" ∨ x.status = "rejected")
        ∧ (∀ a ∈ Consultations.pollIdeas res.db stage.pollId,
           ∀ b ∈ Consultations.pollIdeas res.db stage.pollId,
            a.status = "shortlisted" → b.status = "rejected" →
            Consultations.IdeaOrd a b)) := by
  constructor
  · intro hlt
    unfold Consultations.transitionStage
    rw [if_pos ⟨hstage, rfl⟩]
    dsimp only
    rw [if_pos hlt]
  · intro hge
    have hperm := List.perm_insertionSort Consultations.IdeaOrd
      (Consultations.pollIdeas db stage.pollId)
    have hpn : ((Consultations.pollIdeas db stage.pollId).map (·.id)).Nodup :=
      List.Nodup.sublist (List.Sublist.map _ (List.filter_sublist db.ideas)) hnodup
    have hsn : ((List.insertionSort Consultations.IdeaOrd
        (Consultations.pollIdeas db stage.pollId)).map (·.id)).Nodup :=
      List.Perm.nodup ((hperm.map (·.id)).symm) hpn
    have hpoll_res : Consultations.pollIdeas
        (⟨(db.ideas.map (Consultations.markShortlisted
            (Consultations.shortlistIds db stage.pollId stage.shortlistSize))).map
            (Consultations.markRejected stage.pollId),
          db.ideaVotes, db.nextVoteId⟩ : Consultations.ConsDb) stage.pollId
        = (Consultations.pollIdeas db stage.pollId).map
            (Consultations.markRejected stage.pollId ∘ Consultations.markShortlisted
              (Consultations.shortlistIds db stage.pollId stage.shortlistSize)) := by
      unfold Consultations.pollIdeas
      dsimp only
      rw [List.map_map, List.filter_map]
      have hpred : ((fun i : Consultations.Idea => i.pollId == stage.pollId)
          ∘ (Consultations.markRejected stage.pollId ∘ Consultations.markShortlisted
              (Consultations.shortlistIds db stage.pollId stage.shortlistSize)))
          = fun i : Consultations.Idea => i.pollId == stage.pollId := by
        funext i
        simp only [Function.comp]
        rw [(mark_g_fields _ _ i).2.1]
      rw [hpred]
    have hmem_poll : ∀ i ∈ Consultations.pollIdeas db stage.pollId,
        (i.pollId == stage.pollId) = true := by
      intro i hi
      exact (List.mem_filter.mp hi).2
    have htake_mem : ∀ i ∈ Consultations.pollIdeas db stage.pollId,
        (Consultations.shortlistIds db stage.pollId stage.shortlistSize).contains i.id = true →
        i ∈ (List.insertionSort Consultations.IdeaOrd
            (Consultations.pollIdeas db stage.pollId)).take stage.shortlistSize := by
      intro i hi hc
      have hmemid : i.id ∈ Consultations.shortlistIds db stage.pollId stage.shortlistSize := by
        simpa using hc
      obtain ⟨y, hy, hyid⟩ := List.mem_map.mp hmemid
      have hysort : y ∈ List.insertionSort Consultations.IdeaOrd
          (Consultations.pollIdeas db stage.pollId) :=
        List.take_subset _ _ hy
      have hisort : i ∈ List.insertionSort Consultations.IdeaOrd
          (Consultations.pollIdeas db stage.pollId) := hperm.mem_iff.mpr hi
      have : y = i := List.inj_on_of_nodup_map hsn hysort hisort hyid
      exact this ▸ hy
    have hdrop_not : ∀ i ∈ (List.insertionSort Consultations.IdeaOrd
          (Consultations.pollIdeas db stage.pollId)).drop stage.shortlistSize,
        (Consultations.shortlistIds db stage.pollId stage.shortlistSize).contains i.id
          = false := by
      intro i hi
      rcases hc : (Consultations.shortlistIds db stage.pollId
          stage.shortlistSize).contains i.id
      · rfl
      · exfalso
        have hmemid : i.id ∈ Consultations.shortlistIds db stage.pollId stage.shortlistSize := by
          simpa using hc
        have hnd2 := hsn
        rw [← List.take_append_drop stage.shortlistSize
          (List.insertionSort Consultations.IdeaOrd
            (Consultations.pollIdeas db stage.pollId)), List.map_append] at hnd2
        have hdisj := (List.nodup_append.mp hnd2).2.2
        exact hdisj hmemid (List.mem_map.mpr ⟨i, hi, rfl⟩)
    refine ⟨⟨⟨(db.ideas.map (Consultations.markShortlisted
          (Consultations.shortlistIds db stage.pollId stage.shortlistSize))).map
          (Consultations.markRejected stage.pollId),
        db.ideaVotes, db.nextVoteId⟩,
      ⟨stage.pollId, Consultations.Stage.shortlist_selection,
        stage.minIdeasForStage2, stage.shortlistSize⟩, none, []⟩, ?_, rfl, ?_, ?_, ?_⟩
    · unfold Consultations.transitionStage
      rw [if_pos ⟨hstage, rfl⟩]
      dsimp only
      rw [if_neg (by omega)]
    · -- countStatus = min shortlistSize count
      unfold Consultations.countStatus
      rw [hpoll_res, ← List.countP_eq_length_filter, List.countP_map]
      have hcong : List.countP ((fun x : Consultations.Idea => x.status == "shortlisted")
            ∘ (Consultations.markRejected stage.pollId ∘ Consultations.markShortlisted
              (Consultations.shortlistIds db stage.pollId stage.shortlistSize)))
            (Consultations.pollIdeas db stage.pollId)
          = List.countP (fun i : Consultations.Idea =>
              (Consultations.shortlistIds db stage.pollId
                stage.shortlistSize).contains i.id)
            (Consultations.pollIdeas db stage.pollId) := by
        apply List.countP_congr
        intro x hx
        simp only [Function.comp]
        rcases hc : (Consultations.shortlistIds db stage.pollId
            stage.shortlistSize).contains x.id
        · rw [mark_status_notchosen _ _ _ hc (hmem_poll x hx) (hstatus x hx)]
          simp
        · rw [mark_status_chosen _ _ _ hc]
          simp
      rw [hcong, ← List.Perm.countP_eq _ hperm, ← List.take_append_drop stage.shortlistSize
        (List.insertionSort Consultations.IdeaOrd
          (Consultations.pollIdeas db stage.pollId)), List.countP_append]
      have htake_all : ∀ a ∈ (List.insertionSort Consultations.IdeaOrd
          (Consultations.pollIdeas db stage.pollId)).take stage.shortlistSize,
          ((Consultations.shortlistIds db stage.pollId stage.shortlistSize).contains a.id)
            = true := by
        intro a ha
        have : a.id ∈ Consultations.shortlistIds db stage.pollId stage.shortlistSize :=
          List.mem_map.mpr ⟨a, ha, rfl⟩
        simpa using this
      have hdrop_zero : List.countP (fun i : Consultations.Idea =>
          (Consultations.shortlistIds db stage.pollId stage.shortlistSize).contains i.id)
          ((List.insertionSort Consultations.IdeaOrd
            (Consultations.pollIdeas db stage.pollId)).drop stage.shortlistSize) = 0 := by
        apply List.countP_eq_zero.mpr
        intro a ha
        rw [hdrop_not a ha]
        exact Bool.false_ne_true
      rw [List.countP_eq_length.mpr htake_all, hdrop_zero, Nat.add_zero,
        List.length_take, hperm.length_eq]
    · -- statuses
      intro x hx
      rw [hpoll_res] at hx
      obtain ⟨i, hi, rfl⟩ := List.mem_map.mp hx
      simp only [Function.comp]
      rcases hc : (Consultations.shortlistIds db stage.pollId
          stage.shortlistSize).contains i.id
      · exact Or.inr (mark_status_notchosen _ _ _ hc (hmem_poll i hi) (hstatus i hi))
      · exact Or.inl (mark_status_chosen _ _ _ hc)
    · -- dominance
      intro a ha b hb hsa hsb
      rw [hpoll_res] at ha hb
      obtain ⟨i, hi, rfl⟩ := List.mem_map.mp ha
      obtain ⟨j, hj, rfl⟩ := List.mem_map.mp hb
      simp only [Function.comp] at hsa hsb ⊢
      have hci : (Consultations.shortlistIds db stage.pollId
          stage.shortlistSize).contains i.id = true := by
        rcases hc : (Consultations.shortlistIds db stage.pollId
            stage.shortlistSize).contains i.id
        · rw [mark_status_notchosen _ _ _ hc (hmem_poll i hi) (hstatus i hi)] at hsa
          simp at hsa
        · rfl
      have hcj : (Consultations.shortlistIds db stage.pollId
          stage.shortlistSize).contains j.id = false := by
        rcases hc : (Consultations.shortlistIds db stage.pollId
            stage.shortlistSize).contains j.id
        · rfl
        · rw [mark_status_chosen _ _ _ hc] at hsb
          simp at hsb
      have hitake := htake_mem i hi hci
      have hjsort : j ∈ List.insertionSort Consultations.IdeaOrd
          (Consultations.pollIdeas db stage.pollId) := hperm.mem_iff.mpr hj
      have hjdrop : j ∈ (List.insertionSort Consultations.IdeaOrd
          (Consultations.pollIdeas db stage.pollId)).drop stage.shortlistSize := by
        rw [← List.take_append_drop stage.shortlistSize
          (List.insertionSort Consultations.IdeaOrd
            (Consultations.pollIdeas db stage.pollId))] at hjsort
        rcases List.mem_append.mp hjsort with h | h
        · exfalso
          have : j.id ∈ Consultations.shortlistIds db stage.pollId stage.shortlistSize :=
            List.mem_map.mpr ⟨j, h, rfl⟩
          rw [show (Consultations.shortlistIds db stage.pollId
              stage.shortlistSize).contains j.id = true by simpa using this] at hcj
          exact Bool.false_ne_true hcj.symm
        · exact h
      have hsorted : List.Sorted Consultations.IdeaOrd
          (List.insertionSort Consultations.IdeaOrd
            (Consultations.pollIdeas db stage.pollId)) :=
        List.sorted_insertionSort _ _
      rw [← List.take_append_drop stage.shortlistSize
        (List.insertionSort Consultations.IdeaOrd
          (Consultations.pollIdeas db stage.pollId))] at hsorted
      exact ideaOrd_mark _ _ _ _
        ((List.pairwise_append.mp hsorted).2.2 i hitake j hjdrop)

theorem transitionStage_shortlist_rules_witness :
    (Consultations.transitionStage (⟨[], [], 1⟩ : Consultations.ConsDb)
        ⟨"P", Consultations.Stage.idea_collection, 1, 2⟩
        Consultations.Stage.shortlist_selection
      = .error (.belowMinIdeas 1 0))
    ∧ (∃ res, Consultations.transitionStage
          (⟨[⟨1, "P", "t", 0, 0, "submitted", 1⟩], [], 1⟩ : Consultations.ConsDb)
          ⟨"P", Consultations.Stage.idea_collection, 1, 2⟩
          Consultations.Stage.shortlist_selection = .ok res
        ∧ Consultations.countStatus res.db "P" "shortlisted" = 1) := by
  constructor
  · exact (transitionStage_shortlist_rules ⟨[], [], 1⟩
      ⟨"P", Consultations.Stage.idea_collection, 1, 2⟩ rfl (by decide)
      (by decide)).1 (by decide)
  · obtain ⟨res, h1, _, h3, _⟩ := (transitionStage_shortlist_rules
      ⟨[⟨1, "P", "t", 0, 0, "submitted", 1⟩], [], 1⟩
      ⟨"P", Consultations.Stage.idea_collection, 1, 2⟩ rfl (by decide)
      (by decide)).2 (by decide)
    exact ⟨res, h1, by rw [h3]; decide⟩
